import Mathlib

/-!
Verification of the merge-strategy engine of `scaraplate` (`src/scaraplate/strategies.py`)
against its natural-language specification.

Shallow embedding conventions:
* File bodies are embedded as `String` (bytes decoded as text; the strategies only
  compare, concatenate and split them).
* Parsed INI documents (`ConfigParser` instances) are embedded as `Doc`: an ordered
  list of sections, each an ordered list of key/value pairs.  The INI parser itself is
  an external collaborator (spec §1, §2); documents enter the strategies already
  parsed, as they do in the source where the setup.cfg and pylintrc parsing
  helpers produce `ConfigParser` objects.
* Python's `sorted` is a stable sort; it is embedded as `List.insertionSort`, which is
  stable and sorted for the same total preorder, hence extensionally identical.
* Python's `set` followed by `sorted` with a key injective on distinct elements is
  embedded as `List.dedup` followed by `List.insertionSort`: both produce the unique
  sorted duplicate-free enumeration of the same elements.
* Python string comparison is code-point lexicographic; it is embedded as
  `charListLe` over `String.data`.  `str.casefold` / `str.lower` are embedded as
  the char-level `pyLower` (ASCII model).
* The `KeyError` that `ConfigParser.__getitem__` raises for a missing section is
  embedded as `Option`/`none` propagation.
-/

/-! ## Code-point lexicographic string order (Python string comparison) -/

/-- Lexicographic less-or-equal on char lists by code point, the order Python uses to
compare strings. -/
def charListLe : List Char → List Char → Bool
  | [], _ => true
  | _ :: _, [] => false
  | a :: as, b :: bs => if a = b then charListLe as bs else decide (a.toNat < b.toNat)

theorem char_toNat_lt_ne {a b : Char} (h : a.toNat < b.toNat) : a ≠ b := by
  intro he
  subst he
  exact Nat.lt_irrefl _ h

theorem charListLe_total : ∀ as bs, charListLe as bs = true ∨ charListLe bs as = true
  | [], _ => Or.inl rfl
  | _ :: _, [] => Or.inr rfl
  | a :: as, b :: bs => by
    by_cases hab : a = b
    · subst hab
      simpa [charListLe] using charListLe_total as bs
    · rcases Nat.lt_trichotomy a.toNat b.toNat with h | h | h
      · exact Or.inl (by simp [charListLe, hab, h])
      · exact absurd (Char.ext (UInt32.ext h)) hab
      · exact Or.inr (by simp [charListLe, Ne.symm hab, h])

theorem charListLe_trans :
    ∀ {as bs cs}, charListLe as bs = true → charListLe bs cs = true →
      charListLe as cs = true
  | [], _, _, _, _ => rfl
  | a :: as, b :: bs, [], h₁, h₂ => by simp [charListLe] at h₂
  | a :: as, [], cs, h₁, _ => by simp [charListLe] at h₁
  | a :: as, b :: bs, c :: cs, h₁, h₂ => by
    by_cases hab : a = b <;> by_cases hbc : b = c
    · subst hab; subst hbc
      simp only [charListLe, if_pos rfl] at h₁ h₂ ⊢
      exact charListLe_trans h₁ h₂
    · subst hab
      simp only [charListLe, if_pos rfl] at h₁
      simp only [charListLe, if_neg hbc, decide_eq_true_eq] at h₂
      simp [charListLe, char_toNat_lt_ne h₂, h₂]
    · subst hbc
      simp only [charListLe, if_neg hab, decide_eq_true_eq] at h₁
      simp [charListLe, char_toNat_lt_ne h₁, h₁]
    · simp only [charListLe, if_neg hab, decide_eq_true_eq] at h₁
      simp only [charListLe, if_neg hbc, decide_eq_true_eq] at h₂
      have h := Nat.lt_trans h₁ h₂
      simp [charListLe, char_toNat_lt_ne h, h]

theorem charListLe_antisymm :
    ∀ {as bs}, charListLe as bs = true → charListLe bs as = true → as = bs
  | [], [], _, _ => rfl
  | [], _ :: _, _, h₂ => by simp [charListLe] at h₂
  | _ :: _, [], h₁, _ => by simp [charListLe] at h₁
  | a :: as, b :: bs, h₁, h₂ => by
    by_cases hab : a = b
    · subst hab
      simp only [charListLe, if_pos rfl] at h₁ h₂
      exact congrArg _ (charListLe_antisymm h₁ h₂)
    · simp only [charListLe, if_neg hab, decide_eq_true_eq] at h₁
      simp only [charListLe, if_neg (Ne.symm hab), decide_eq_true_eq] at h₂
      exact absurd (Nat.lt_trans h₁ h₂) (Nat.lt_irrefl _)

/-- Python string `<=` (code-point lexicographic). -/
def strLe (a b : String) : Bool := charListLe a.data b.data

theorem strLe_total (a b : String) : strLe a b = true ∨ strLe b a = true :=
  charListLe_total a.data b.data

theorem strLe_trans {a b c : String} (h₁ : strLe a b = true) (h₂ : strLe b c = true) :
    strLe a c = true :=
  charListLe_trans h₁ h₂

theorem strLe_antisymm {a b : String} (h₁ : strLe a b = true) (h₂ : strLe b a = true) :
    a = b := by
  cases a
  cases b
  exact congrArg _ (charListLe_antisymm h₁ h₂)

/-! ## Sort keys used by the strategies

`SortedUniqueLines` sorts with `key=lambda s: (s.casefold(), s)` (strategies.py:77);
`_merge_requirements` sorts with `key=str.casefold` (strategies.py:300).  Python's
`sorted` compares the key tuples lexicographically and is stable; `List.insertionSort`
over the corresponding relation is stable and sorted for the same preorder, hence
produces the same list. -/

/-- Python `str.casefold` / `str.lower` (ASCII model), embedded at char level
because it must be evaluable on concrete inputs. -/
def pyLower (s : String) : String := ⟨s.data.map Char.toLower⟩

/-- The order on lines induced by the sort key `(s.casefold(), s)`. -/
def lineLe (a b : String) : Bool :=
  if pyLower a = pyLower b then strLe a b else strLe (pyLower a) (pyLower b)

/-- `lineLe` as a `Prop` relation, for `List.insertionSort`. -/
def lineR (a b : String) : Prop := lineLe a b = true

instance : DecidableRel lineR := fun a b =>
  inferInstanceAs (Decidable (lineLe a b = true))

instance : IsTotal String lineR where
  total a b := by
    unfold lineR lineLe
    by_cases h : pyLower a = pyLower b
    · simpa [h] using strLe_total a b
    · simpa [h, Ne.symm h] using strLe_total (pyLower a) (pyLower b)

instance : IsTrans String lineR where
  trans a b c h₁ h₂ := by
    unfold lineR lineLe at h₁ h₂ ⊢
    by_cases hab : pyLower a = pyLower b <;> by_cases hbc : pyLower b = pyLower c
    · rw [if_pos hab] at h₁
      rw [if_pos hbc] at h₂
      rw [if_pos (hab.trans hbc)]
      exact strLe_trans h₁ h₂
    · rw [if_pos hab] at h₁
      rw [if_neg hbc] at h₂
      rw [if_neg (hab ▸ hbc), hab]
      exact h₂
    · rw [if_neg hab] at h₁
      rw [if_pos hbc] at h₂
      rw [if_neg (hbc ▸ hab), ← hbc]
      exact h₁
    · rw [if_neg hab] at h₁
      rw [if_neg hbc] at h₂
      by_cases hac : pyLower a = pyLower c
      · have h₂' : strLe (pyLower b) (pyLower a) = true := by rw [hac]; exact h₂
        exact absurd (strLe_antisymm h₁ h₂') hab
      · rw [if_neg hac]
        exact strLe_trans h₁ h₂

instance : IsAntisymm String lineR where
  antisymm a b h₁ h₂ := by
    unfold lineR lineLe at h₁ h₂
    by_cases hab : pyLower a = pyLower b
    · rw [if_pos hab] at h₁
      rw [if_pos hab.symm] at h₂
      exact strLe_antisymm h₁ h₂
    · rw [if_neg hab] at h₁
      rw [if_neg (Ne.symm hab)] at h₂
      exact absurd (strLe_antisymm h₁ h₂) hab

/-- The order on requirement specifiers induced by the sort key `str.casefold`. -/
def reqLe (a b : String) : Bool := strLe (pyLower a) (pyLower b)

/-- `reqLe` as a `Prop` relation, for `List.insertionSort`. -/
def reqR (a b : String) : Prop := reqLe a b = true

instance : DecidableRel reqR := fun a b =>
  inferInstanceAs (Decidable (reqLe a b = true))

instance : IsTotal String reqR where
  total a b := strLe_total (pyLower a) (pyLower b)

instance : IsTrans String reqR where
  trans _ _ _ h₁ h₂ := strLe_trans h₁ h₂

/-- The order on `(name, payload)` pairs used when serializing a parsed document with
sections and keys alphabetically ordered (spec §4.6, §4.8). -/
def fstLe {α : Type} (p q : String × α) : Prop := strLe p.1 q.1 = true

instance {α : Type} : DecidableRel (@fstLe α) := fun p q =>
  inferInstanceAs (Decidable (strLe p.1 q.1 = true))

instance {α : Type} : IsTotal (String × α) fstLe where
  total p q := strLe_total p.1 q.1

instance {α : Type} : IsTrans (String × α) fstLe where
  trans _ _ _ h₁ h₂ := strLe_trans h₁ h₂

/-! ## Line splitting and joining

`str.splitlines` (strategies.py:67,69) splits on newlines and does not report a final
empty chunk for a trailing newline; `str.split("\n")` (strategies.py:128) does.  Both
are embedded structurally over `String.data`. -/

/-- Python `str.splitlines` over a char list (newline-only model). -/
def splitlinesChars : List Char → List (List Char)
  | [] => []
  | c :: cs =>
    if c = '\n' then [] :: splitlinesChars cs
    else
      match splitlinesChars cs with
      | [] => [[c]]
      | l :: ls => (c :: l) :: ls

/-- Python `str.splitlines`. -/
def splitlines (s : String) : List String :=
  (splitlinesChars s.data).map (fun cs => ⟨cs⟩)

/-- Python `str.split("\n")` over a char list. -/
def splitNlChars : List Char → List (List Char)
  | [] => [[]]
  | c :: cs =>
    if c = '\n' then [] :: splitNlChars cs
    else
      match splitNlChars cs with
      | [] => [[c]]
      | l :: ls => (c :: l) :: ls

/-- Python `str.split("\n")`. -/
def splitNl (s : String) : List String :=
  (splitNlChars s.data).map (fun cs => ⟨cs⟩)

/-- Python `"\n".join(...)`. -/
def joinWithNewlines : List String → String
  | [] => ""
  | [l] => l
  | l :: ls => l ++ "\n" ++ joinWithNewlines ls

/-- Python `needle in haystack` on bytes/str (substring containment). -/
def containsSub (needle : List Char) : List Char → Bool
  | [] => needle.isEmpty
  | c :: t => needle.isPrefixOf (c :: t) || containsSub needle t

/-- `strContains hay needle` embeds Python `needle in hay`. -/
def strContains (hay needle : String) : Bool := containsSub needle.data hay.data

/-! ## Basic string lemmas -/

theorem str_ext {a b : String} (h : a.data = b.data) : a = b := by
  cases a
  cases b
  exact congrArg _ h

theorem str_append_empty (s : String) : s ++ "" = s :=
  str_ext (by simp [String.data_append])

theorem str_mk_ne_empty {cs : List Char} (h : cs ≠ []) : (⟨cs⟩ : String) ≠ "" := by
  intro he
  exact h (congrArg String.data he)

/-! ## Lemmas about line splitting and joining -/

theorem splitlinesChars_no_newline :
    ∀ cs, ∀ l ∈ splitlinesChars cs, '\n' ∉ l
  | [], l, hl => by simp [splitlinesChars] at hl
  | c :: cs, l, hl => by
    by_cases hc : c = '\n'
    · rw [splitlinesChars, if_pos hc] at hl
      rcases List.mem_cons.mp hl with h | h
      · subst h; simp
      · exact splitlinesChars_no_newline cs l h
    · rw [splitlinesChars, if_neg hc] at hl
      rcases he : splitlinesChars cs with - | ⟨l', ls⟩
      · rw [he] at hl
        rcases List.mem_cons.mp hl with h | h
        · subst h
          intro hm
          exact hc (List.mem_singleton.mp hm).symm
        · simp at h
      · rw [he] at hl
        rcases List.mem_cons.mp hl with h | h
        · subst h
          have h' := splitlinesChars_no_newline cs l' (he ▸ List.mem_cons_self l' ls)
          intro hm
          rcases List.mem_cons.mp hm with he' | hm'
          · exact hc he'.symm
          · exact h' hm'
        · exact splitlinesChars_no_newline cs l (he ▸ List.mem_cons_of_mem l' h)

theorem splitlines_no_newline {s : String} {l : String} (h : l ∈ splitlines s) :
    '\n' ∉ l.data := by
  rcases List.mem_map.mp h with ⟨cs, hcs, hl⟩
  subst hl
  exact splitlinesChars_no_newline s.data cs hcs

theorem splitlinesChars_append_line (l rest : List Char) (h : '\n' ∉ l) :
    splitlinesChars (l ++ '\n' :: rest) = l :: splitlinesChars rest := by
  induction l with
  | nil => simp [splitlinesChars]
  | cons c l ih =>
    have hc : c ≠ '\n' := fun he => h (he ▸ List.mem_cons_self c l)
    have h' : '\n' ∉ l := fun hm => h (List.mem_cons_of_mem c hm)
    rw [List.cons_append, splitlinesChars, if_neg hc, ih h']

theorem joinWithNewlines_cons_of_ne_nil (a : String) {L : List String} (h : L ≠ []) :
    joinWithNewlines (a :: L) = a ++ "\n" ++ joinWithNewlines L := by
  cases L with
  | nil => exact absurd rfl h
  | cons b L => rfl

theorem joinWithNewlines_append_empty :
    ∀ L : List String, L ≠ [] →
      joinWithNewlines (L ++ [""]) = joinWithNewlines L ++ "\n"
  | [], h => absurd rfl h
  | [a], _ => by
    show a ++ "\n" ++ joinWithNewlines [""] = a ++ "\n"
    rw [show joinWithNewlines [""] = "" from rfl, str_append_empty]
  | a :: b :: L, _ => by
    rw [List.cons_append,
      joinWithNewlines_cons_of_ne_nil a (by simp),
      joinWithNewlines_append_empty (b :: L) (by simp),
      joinWithNewlines_cons_of_ne_nil a (by simp)]
    simp [String.append_assoc]

theorem splitlines_joinWithNewlines :
    ∀ L : List String, (∀ l ∈ L, l ≠ "" ∧ '\n' ∉ l.data) →
      splitlines (joinWithNewlines (L ++ [""])) = L
  | [], _ => rfl
  | a :: L, h => by
    have ha := h a (List.mem_cons_self a L)
    have hL : ∀ l ∈ L, l ≠ "" ∧ '\n' ∉ l.data :=
      fun l hl => h l (List.mem_cons_of_mem a hl)
    rw [List.cons_append, joinWithNewlines_cons_of_ne_nil a (by simp)]
    show ((splitlinesChars (a ++ "\n" ++ joinWithNewlines (L ++ [""])).data).map
        (fun cs => (⟨cs⟩ : String))) = a :: L
    rw [String.data_append, String.data_append,
      show ("\n" : String).data = ['\n'] from rfl, List.append_assoc,
      List.cons_append, List.nil_append,
      splitlinesChars_append_line a.data _ ha.2]
    show (⟨a.data⟩ : String) :: splitlines (joinWithNewlines (L ++ [""])) = a :: L
    rw [splitlines_joinWithNewlines L hL]

theorem joinWithNewlines_cons_data_ne_nil (b : String) (L : List String)
    (hb : b ≠ "") : (joinWithNewlines (b :: L)).data ≠ [] := by
  cases L with
  | nil =>
    intro he
    exact hb (str_ext (by simpa using he))
  | cons c L =>
    rw [joinWithNewlines_cons_of_ne_nil b (by simp), String.data_append,
      String.data_append]
    simp

theorem joinWithNewlines_getLast_ne_newline :
    ∀ L : List String, L ≠ [] → (∀ l ∈ L, l ≠ "" ∧ '\n' ∉ l.data) →
      (joinWithNewlines L).data.getLast? ≠ some '\n'
  | [], h, _ => absurd rfl h
  | [a], _, h => by
    intro hc
    have ha := h a (by simp)
    exact ha.2 (List.mem_of_getLast?_eq_some hc)
  | a :: b :: L, _, h => by
    rw [joinWithNewlines_cons_of_ne_nil a (by simp), String.data_append,
      String.data_append,
      List.getLast?_append_of_ne_nil _
        (joinWithNewlines_cons_data_ne_nil b L (h b (by simp)).1)]
    exact joinWithNewlines_getLast_ne_newline (b :: L) (by simp)
      (fun l hl => h l (List.mem_cons_of_mem a hl))

/-! ## Canonical sorted deduplication

Python's `sorted(set(xs), key=...)` with a key injective on distinct elements yields
the unique sorted duplicate-free enumeration of the elements of `xs`, regardless of
`set` iteration order; `List.insertionSort lineR ∘ List.dedup` yields the same. -/

theorem insertionSort_dedup_ext {l l' : List String}
    (h : ∀ x, x ∈ l ↔ x ∈ l') :
    List.insertionSort lineR l.dedup = List.insertionSort lineR l'.dedup := by
  apply List.eq_of_perm_of_sorted (r := lineR)
  · refine (List.perm_insertionSort lineR l.dedup).trans
      (List.Perm.trans ?_ (List.perm_insertionSort lineR l'.dedup).symm)
    refine (List.perm_ext_iff_of_nodup (List.nodup_dedup l) (List.nodup_dedup l')).mpr ?_
    intro a
    rw [List.mem_dedup, List.mem_dedup]
    exact h a
  · exact List.sorted_insertionSort lineR l.dedup
  · exact List.sorted_insertionSort lineR l'.dedup

/-! ## SortedUniqueLines (strategies.py:61-82) -/

namespace SortedUniqueLines

/-- The lines contributed by the optional target file (strategies.py:68-69). -/
def target_lines : Option String → List String
  | some t => splitlines t
  | none => []

/-- The line list built by `SortedUniqueLines.apply` just before the final
`"\n".join`: template lines plus target lines (strategies.py:67-69), deduplicated and
sorted by `(s.casefold(), s)` (strategies.py:77), with empty lines dropped
(strategies.py:79). -/
def out_lines (template_text : String) (target_text : Option String) : List String :=
  let ls := splitlines template_text ++ target_lines target_text
  (List.insertionSort lineR ls.dedup).filter (fun line => line ≠ "")

/-- `SortedUniqueLines.apply` (strategies.py:66-82): the processed lines plus one
final empty line, joined with newlines. -/
def apply (template_text : String) (target_text : Option String) : String :=
  joinWithNewlines (out_lines template_text target_text ++ [""])

theorem out_lines_nodup (template_text : String) (target_text : Option String) :
    (out_lines template_text target_text).Nodup :=
  List.Nodup.filter _
    ((List.perm_insertionSort lineR _).nodup_iff.mpr (List.nodup_dedup _))

theorem out_lines_sorted (template_text : String) (target_text : Option String) :
    List.Sorted lineR (out_lines template_text target_text) :=
  List.Sorted.filter _ (List.sorted_insertionSort lineR _)

theorem out_lines_ne_empty (template_text : String) (target_text : Option String) :
    ∀ l ∈ out_lines template_text target_text, l ≠ "" := by
  intro l hl
  have := List.of_mem_filter hl
  simpa using this

theorem mem_out_lines_of_splitlines {template_text : String}
    {target_text : Option String} {l : String}
    (hl : l ∈ out_lines template_text target_text) :
    l ∈ splitlines template_text ++ target_lines target_text := by
  have hmem := List.mem_of_mem_filter hl
  have hmem' := (List.perm_insertionSort lineR _).mem_iff.mp hmem
  exact List.mem_dedup.mp hmem'

theorem mem_out_lines_no_newline (template_text : String) (target_text : Option String) :
    ∀ l ∈ out_lines template_text target_text, '\n' ∉ l.data := by
  intro l hl
  rcases List.mem_append.mp (mem_out_lines_of_splitlines hl) with h | h
  · exact splitlines_no_newline h
  · rcases target_text with - | t
    · simp [target_lines] at h
    · exact splitlines_no_newline h

end SortedUniqueLines

/-! ## TemplateHash family (strategies.py:85-144) -/

/-- Modelled from the spec: `TemplateMeta` (spec §2, §3 TemplateMetadata) is produced
by the external `scaraplate.template` collaborator, which is not part of the core
sources; it is an immutable value with a commit URL and a dirty flag. -/
structure TemplateMeta where
  commit_url : String
  is_git_dirty : Bool

namespace TemplateHash

/-- `TemplateHash.comment` (strategies.py:96-103), parameterized by
`line_comment_start` (`"#"` for the base class, `"//"` for the Groovy subclass). -/
def comment (line_comment_start : String) (meta : TemplateMeta) : String :=
  let comment_lines :=
    ["Generated by https://github.com/rambler-digital-solutions/scaraplate"] ++
      (if meta.is_git_dirty then ["From (dirty) " ++ meta.commit_url]
       else ["From " ++ meta.commit_url])
  String.join (comment_lines.map (fun line => line_comment_start ++ " " ++ line ++ "\n"))

/-- The body of `TemplateHash.apply` (strategies.py:105-116), parameterized by the
comment block because subclasses override `comment()` and the inherited `apply`
dispatches to the override. -/
def apply_with_comment (meta : TemplateMeta) (c : String)
    (target_contents : Option String) (template_contents : String) : String :=
  match target_contents with
  | some target_text =>
    if strContains target_text c && !meta.is_git_dirty then target_text
    else template_contents ++ "\n" ++ c
  | none => template_contents ++ "\n" ++ c

/-- `TemplateHash.apply` (strategies.py:105-116). -/
def apply (line_comment_start : String) (meta : TemplateMeta)
    (target_contents : Option String) (template_contents : String) : String :=
  apply_with_comment meta (comment line_comment_start meta) target_contents
    template_contents

end TemplateHash

namespace PythonTemplateHash

/-- `PythonTemplateHash.line_length` (strategies.py:124). -/
def line_length : Nat := 87

/-- `PythonTemplateHash._maybe_add_noqa` (strategies.py:132-135). -/
def maybe_add_noqa (line : String) : String :=
  if line_length ≤ line.length then line ++ "  # noqa" else line

/-- `PythonTemplateHash.comment` (strategies.py:126-130): the base comment split on
newlines, each line run through `_maybe_add_noqa`, re-joined. -/
def comment (meta : TemplateMeta) : String :=
  let c := TemplateHash.comment "#" meta
  let comment_lines := splitNl c
  joinWithNewlines (comment_lines.map maybe_add_noqa)

/-- `PythonTemplateHash.apply`: the inherited body with the overridden comment. -/
def apply (meta : TemplateMeta) (target_contents : Option String)
    (template_contents : String) : String :=
  TemplateHash.apply_with_comment meta (comment meta) target_contents
    template_contents

end PythonTemplateHash

namespace GroovyTemplateHash

/-- `GroovyTemplateHash` (strategies.py:138-144) only changes the comment token. -/
def apply (meta : TemplateMeta) (target_contents : Option String)
    (template_contents : String) : String :=
  TemplateHash.apply "//" meta target_contents template_contents

end GroovyTemplateHash

theorem splitNlChars_append_line (l rest : List Char) (h : '\n' ∉ l) :
    splitNlChars (l ++ '\n' :: rest) = l :: splitNlChars rest := by
  induction l with
  | nil => simp [splitNlChars]
  | cons c l ih =>
    have hc : c ≠ '\n' := fun he => h (he ▸ List.mem_cons_self c l)
    have h' : '\n' ∉ l := fun hm => h (List.mem_cons_of_mem c hm)
    rw [List.cons_append, splitNlChars, if_neg hc, ih h']

/-! ## Parsed INI documents

A `ConfigParser` document is embedded as an ordered association list of sections,
each an ordered association list of key/value pairs (spec §3 StructuredDocument:
ordered sections of ordered string pairs, names unique).  The operations below embed
the `ConfigParser` operations the strategies use. -/

/-- One section body: an ordered key/value mapping. -/
abbrev IniSection := List (String × String)

/-- A parsed document: ordered named sections. -/
abbrev Doc := List (String × IniSection)

/-- Well-formedness guaranteed by the parser (spec §3): section names are unique and
keys are unique within each section. -/
def DocWF (d : Doc) : Prop :=
  (d.map Prod.fst).Nodup ∧ ∀ p ∈ d, (p.2.map Prod.fst).Nodup

instance (d : Doc) : Decidable (DocWF d) := by
  unfold DocWF
  infer_instance

/-- `parser[section]` without the `KeyError` (`none` = missing section). -/
def getSection (d : Doc) (s : String) : Option IniSection :=
  (d.find? (fun p => p.1 = s)).map Prod.snd

/-- `section_proxy[key]` without the `KeyError` (`none` = missing key). -/
def lookupKey (sec : IniSection) (k : String) : Option String :=
  (sec.find? (fun q => q.1 = k)).map Prod.snd

/-- `parser[section][key]` with both `KeyError`s turned into `none`. -/
def getKey (d : Doc) (s k : String) : Option String :=
  (getSection d s).bind (fun sec => lookupKey sec k)

/-- `parser.has_section(section)`. -/
def hasSection (d : Doc) (s : String) : Bool :=
  d.any (fun p => p.1 = s)

/-- `_ensure_section` (strategies.py:18-20): `add_section` appends an empty section
if absent. -/
def ensure_section (d : Doc) (s : String) : Doc :=
  if hasSection d s then d else d ++ [(s, [])]

/-- Python `dict.__setitem__` / `SectionProxy.__setitem__`: update the value in
place if the key exists, append otherwise. -/
def dictSet (sec : IniSection) (k v : String) : IniSection :=
  if sec.any (fun q => q.1 = k) then
    sec.map (fun q => if q.1 = k then (k, v) else q)
  else sec ++ [(k, v)]

/-- `parser[section][key] = value` for an existing section (the strategies always
call `_ensure_section` first). -/
def setKey (d : Doc) (s k v : String) : Doc :=
  d.map (fun p => if p.1 = s then (s, dictSet p.2 k v) else p)

/-- `parser[section] = data` (`ConfigParser.__setitem__`): refill the section in
place if present, append it otherwise. -/
def setSection (d : Doc) (s : String) (data : IniSection) : Doc :=
  if hasSection d s then d.map (fun p => if p.1 = s then (s, data) else p)
  else d ++ [(s, data)]

/-- Modelled from the spec: `parser_to_pretty_output` (`scaraplate.parsers`, not
among the core sources) serializes a document in canonical sorted form, sections and
keys alphabetically ordered (spec §2, §4.6); comments were already dropped at parse
time.  The serialized document is represented by its sorted section/key structure. -/
def parser_to_pretty_output (d : Doc) : Doc :=
  (List.insertionSort fstLe d).map
    (fun p => (p.1, List.insertionSort fstLe p.2))

/-! ## Simple strategies (strategies.py:40-58) -/

/-- `Overwrite.apply` (strategies.py:45-46). -/
def Overwrite.apply (_target_contents : Option String)
    (template_contents : String) : String :=
  template_contents

/-- `IfMissing.apply` (strategies.py:54-58). -/
def IfMissing.apply (target_contents : Option String) (template_contents : String) :
    String :=
  match target_contents with
  | none => template_contents
  | some t => t

/-! ## Requirement list utilities (spec §4.8)

These live in `scaraplate.parsers`, which is not among the core sources; they are
modelled from the spec. -/

/-- Python `str.strip()` whitespace predicate (ASCII model). -/
def isPySpace (c : Char) : Bool :=
  c = ' ' || c = '\t' || c = '\n' || c = '\r' || c = '\x0b' || c = '\x0c'

/-- Python `str.strip()`. -/
def pyStrip (s : String) : String :=
  ⟨((s.data.dropWhile isPySpace).reverse.dropWhile isPySpace).reverse⟩

/-- Splitting on commas, analogous to `splitNlChars`. -/
def splitCommaChars : List Char → List (List Char)
  | [] => [[]]
  | c :: cs =>
    if c = ',' then [] :: splitCommaChars cs
    else
      match splitCommaChars cs with
      | [] => [[c]]
      | l :: ls => (c :: l) :: ls

/-- Modelled from the spec: `parse_setupcfg_requirements` (`scaraplate.parsers`,
spec §4.8) splits a multi-line, comma/newline-delimited field into individual
specifier strings, discarding blank entries. -/
def parse_setupcfg_requirements (text : String) : List String :=
  (((splitNl text).map
      (fun l => (splitCommaChars l.data).map (fun cs => (⟨cs⟩ : String)))).flatten.map
    pyStrip).filter (fun r => r ≠ "")

/-- Modelled from the spec: `dump_setupcfg_requirements` (`scaraplate.parsers`,
spec §4.8) re-serializes a list of specifiers, one per line. -/
def dump_setupcfg_requirements (reqs : List String) : String :=
  joinWithNewlines reqs

/-- Characters of a package-identifier token (PEP 508 names use letters, digits,
`-`, `_`, `.`). -/
def isRequirementNameChar (c : Char) : Bool :=
  c.isAlphanum || c = '-' || c = '_' || c = '.'

/-- Modelled from the spec: `requirement_name` (`scaraplate.parsers`, spec §4.8)
extracts the leading package-identifier token of a specifier, ignoring version
operators, extras in brackets and environment markers. -/
def requirement_name (req : String) : String :=
  ⟨req.data.takeWhile isRequirementNameChar⟩

/-- `normalize_requirement` (strategies.py:287-288): the requirement name,
lowercased. -/
def normalize_requirement (req : String) : String :=
  pyLower (requirement_name req)

/-! ## Shared key preservation

`PylintrcMerge._maybe_preserve_key` (strategies.py:178-193) and
`SetupcfgMerge._maybe_preserve_key` (strategies.py:315-330) are textually
identical: copy the target's value of `(section, key)` into the template document
when the target has one, keep the template's value otherwise. -/

def maybe_preserve_key (template_doc target_doc : Doc) (sec key : String) :
    Doc :=
  match getKey target_doc sec key with
  | none => template_doc
  | some v => setKey (ensure_section template_doc sec) sec key v

/-! ## PylintrcMerge (strategies.py:147-193) -/

namespace PylintrcMerge

/-- `PylintrcMerge.apply` (strategies.py:160-176): documents enter already parsed by
the pylintrc parsing helper. -/
def apply (template_doc : Doc) (target : Option Doc) : Doc :=
  match target with
  | none => parser_to_pretty_output template_doc
  | some target_doc =>
    parser_to_pretty_output
      (maybe_preserve_key
        (maybe_preserve_key template_doc target_doc "TYPECHECK"
          "ignored-modules")
        target_doc "TYPECHECK" "ignored-classes")

end PylintrcMerge

/-! ## SetupcfgMerge (strategies.py:196-330) -/

/-- Matching one char of a regex in which the only metacharacter is `.` (which
matches any char except a newline). -/
def reDotCharMatch (p c : Char) : Bool :=
  if p = '.' then decide (c ≠ '\n') else p = c

/-- `re.match` against `^pat$` where `pat` contains no metacharacter but `.`. -/
def reDotExact : List Char → List Char → Bool
  | [], [] => true
  | p :: ps, c :: cs => reDotCharMatch p c && reDotExact ps cs
  | _, _ => false

namespace SetupcfgMerge

/-- `re.compile("^freebsd$")` (strategies.py:213), no metacharacters. -/
def pat_freebsd (s : String) : Bool := s == "freebsd"

/-- `re.compile("^mypy-")` (strategies.py:217), an unanchored-end prefix match. -/
def pat_mypy (s : String) : Bool := "mypy-".data.isPrefixOf s.data

/-- `re.compile("^options.data_files$")` (strategies.py:221); the `.` is a regex
wildcard. -/
def pat_data_files (s : String) : Bool := reDotExact "options.data_files".data s.data

/-- `re.compile("^options.entry_points$")` (strategies.py:225). -/
def pat_entry_points (s : String) : Bool :=
  reDotExact "options.entry_points".data s.data

/-- `re.compile("^options.extras_require$")` (strategies.py:231). -/
def pat_extras_require (s : String) : Bool :=
  reDotExact "options.extras_require".data s.data

/-- `re.compile("^develop$")` (strategies.py:232), no metacharacters. -/
def pat_develop (k : String) : Bool := k == "develop"

/-- The inner loop of `_maybe_preserve_sections` (strategies.py:265-268): restore
the template's values for ignored keys into the copied target section data. -/
def restore_ignored (ignore_keys_pattern : String → Bool)
    (template_section data : IniSection) : IniSection :=
  template_section.foldl
    (fun d kv => if ignore_keys_pattern kv.1 then dictSet d kv.1 kv.2 else d) data

/-- `SetupcfgMerge._maybe_preserve_sections` (strategies.py:254-270), iterating the
target's sections in order.  `template_doc[section]` on a missing section raises
`KeyError` in the `ignore_keys_pattern` branch, embedded as `none`. -/
def maybe_preserve_sections (template_doc : Doc) (target_sections : Doc)
    (sections_pattern : String → Bool)
    (ignore_keys_pattern : Option (String → Bool)) : Option Doc :=
  match target_sections with
  | [] => some template_doc
  | e :: rest =>
    if sections_pattern e.1 then
      match ignore_keys_pattern with
      | none =>
        maybe_preserve_sections (setSection template_doc e.1 e.2) rest
          sections_pattern none
      | some ip =>
        match getSection template_doc e.1 with
        | none => none
        | some template_section =>
          maybe_preserve_sections
            (setSection template_doc e.1 (restore_ignored ip template_section e.2))
            rest sections_pattern (some ip)
    else maybe_preserve_sections template_doc rest sections_pattern
      ignore_keys_pattern

/-- `SetupcfgMerge._parse_requirements` (strategies.py:305-313). -/
def parse_requirements_at (parser : Doc) (sec key : String) : List String :=
  match getKey parser sec key with
  | none => []
  | some v => parse_setupcfg_requirements v

/-- The list-level core of `SetupcfgMerge._merge_requirements`
(strategies.py:287-300): keep the target's list, append template specifiers whose
normalized name is not among the target's, sort by `str.casefold`. -/
def merge_requirements_list (template_requirements target_requirements :
    List String) : List String :=
  let existing_requirement_names := target_requirements.map normalize_requirement
  let wanted_requirements :=
    template_requirements.foldl
      (fun acc r =>
        if existing_requirement_names.contains (normalize_requirement r) then acc
        else acc ++ [r])
      target_requirements
  List.insertionSort reqR wanted_requirements

/-- `SetupcfgMerge._merge_requirements` (strategies.py:272-303). -/
def merge_requirements (template_doc : Doc) (target_doc : Option Doc)
    (sec key : String) : Doc :=
  let template_requirements := parse_requirements_at template_doc sec key
  let target_requirements :=
    match target_doc with
    | some t => parse_requirements_at t sec key
    | none => []
  let wanted := merge_requirements_list template_requirements target_requirements
  setKey (ensure_section template_doc sec) sec key
    (dump_setupcfg_requirements wanted)

/-- `SetupcfgMerge.apply` (strategies.py:197-252). -/
def apply (template_doc : Doc) (target : Option Doc) : Option Doc := do
  let d₅ ←
    match target with
    | none => some template_doc
    | some target_doc => do
      let d₁ ← maybe_preserve_sections template_doc target_doc pat_freebsd
        none
      let d₂ ← maybe_preserve_sections d₁ target_doc pat_mypy none
      let d₃ ← maybe_preserve_sections d₂ target_doc pat_data_files none
      let d₄ ← maybe_preserve_sections d₃ target_doc pat_entry_points none
      let d₅ ← maybe_preserve_sections d₄ target_doc pat_extras_require
        (some pat_develop)
      let d₆ := maybe_preserve_key d₅ target_doc "tool:pytest" "testpaths"
      some (maybe_preserve_key d₆ target_doc "build" "executable")
  let d₈ := merge_requirements d₅ target "options.extras_require" "develop"
  let d₉ := merge_requirements d₈ target "options" "install_requires"
  some (parser_to_pretty_output d₉)

end SetupcfgMerge


/-! ## Lemmas about the document operations -/

theorem hasSection_iff {d : Doc} {s : String} :
    hasSection d s = true ↔ ∃ p ∈ d, p.1 = s := by
  simp [hasSection]

theorem getSection_eq_none_iff {d : Doc} {s : String} :
    getSection d s = none ↔ hasSection d s = false := by
  constructor
  · intro h
    rcases hf : d.find? (fun p => p.1 = s) with - | p
    · rw [List.find?_eq_none] at hf
      simp only [hasSection, List.any_eq_false]
      intro p hp
      simpa using hf p hp
    · simp [getSection, hf] at h
  · intro h
    rcases hf : d.find? (fun p => p.1 = s) with - | p
    · simp [getSection, hf]
    · have hp := List.find?_some hf
      have hm := List.mem_of_find?_eq_some hf
      simp only [hasSection, List.any_eq_false] at h
      have := h p hm
      simp only [decide_eq_true_eq] at hp
      simp [hp] at this

theorem getSection_isSome_of_hasSection {d : Doc} {s : String}
    (h : hasSection d s = true) : ∃ sec, getSection d s = some sec := by
  rcases hg : getSection d s with - | sec
  · rw [getSection_eq_none_iff.mp hg] at h
    cases h
  · exact ⟨sec, rfl⟩

theorem getSection_mem {d : Doc} {s : String} {sec : IniSection}
    (h : getSection d s = some sec) : (s, sec) ∈ d := by
  unfold getSection at h
  rcases hf : d.find? (fun p => p.1 = s) with - | p
  · rw [hf] at h
    cases h
  · rw [hf] at h
    have hp := List.find?_some hf
    have hm := List.mem_of_find?_eq_some hf
    simp only [decide_eq_true_eq] at hp
    cases h
    rcases p with ⟨ps, psec⟩
    cases hp
    exact hm

theorem lookupKey_mem {sec : IniSection} {k v : String}
    (h : lookupKey sec k = some v) : (k, v) ∈ sec := by
  unfold lookupKey at h
  rcases hf : sec.find? (fun q => q.1 = k) with - | q
  · rw [hf] at h
    cases h
  · rw [hf] at h
    have hq := List.find?_some hf
    have hm := List.mem_of_find?_eq_some hf
    simp only [decide_eq_true_eq] at hq
    cases h
    rcases q with ⟨qk, qv⟩
    cases hq
    exact hm

theorem lookupKey_cons_ne {q : String × String} {sec : IniSection} {k : String}
    (h : q.1 ≠ k) : lookupKey (q :: sec) k = lookupKey sec k := by
  simp [lookupKey, List.find?_cons, h]

theorem lookupKey_dictSet_self (sec : IniSection) (k v : String) :
    lookupKey (dictSet sec k v) k = some v := by
  unfold dictSet
  by_cases h : sec.any (fun q => q.1 = k) = true
  · rw [if_pos h]
    induction sec with
    | nil => simp at h
    | cons q sec ih =>
      by_cases hq : q.1 = k
      · simp [lookupKey, List.find?_cons, hq]
      · rw [List.map_cons, if_neg hq, lookupKey_cons_ne hq]
        apply ih
        simpa [List.any_cons, hq] using h
  · rw [if_neg h]
    induction sec with
    | nil => simp [lookupKey]
    | cons q sec ih =>
      have hq : q.1 ≠ k := by
        intro he
        exact h (by simp [List.any_cons, he])
      rw [List.cons_append, lookupKey_cons_ne hq]
      apply ih
      intro ha
      exact h (by simp [List.any_cons, ha])

theorem lookupKey_map_update_ne (sec : IniSection) {k k' : String} (v : String)
    (h : k' ≠ k) :
    lookupKey (sec.map (fun q => if q.1 = k then (k, v) else q)) k'
      = lookupKey sec k' := by
  induction sec with
  | nil => simp
  | cons q sec ih =>
    by_cases hq : q.1 = k
    · rw [List.map_cons, if_pos hq, lookupKey_cons_ne (Ne.symm h) (q := (k, v)),
        lookupKey_cons_ne (fun he => h (hq ▸ he ▸ rfl))]
      exact ih
    · rw [List.map_cons, if_neg hq]
      by_cases hq' : q.1 = k'
      · simp [lookupKey, List.find?_cons, hq']
      · rw [lookupKey_cons_ne hq', lookupKey_cons_ne hq']
        exact ih

theorem lookupKey_append_single_ne (sec : IniSection) {k k' : String} (v : String)
    (h : k' ≠ k) : lookupKey (sec ++ [(k, v)]) k' = lookupKey sec k' := by
  induction sec with
  | nil => simp [lookupKey, List.find?_cons, Ne.symm h]
  | cons q sec ih =>
    by_cases hq' : q.1 = k'
    · simp [lookupKey, List.find?_cons, hq']
    · rw [List.cons_append, lookupKey_cons_ne hq', lookupKey_cons_ne hq']
      exact ih

theorem lookupKey_dictSet_ne (sec : IniSection) {k k' : String} (v : String)
    (h : k' ≠ k) : lookupKey (dictSet sec k v) k' = lookupKey sec k' := by
  unfold dictSet
  split
  · exact lookupKey_map_update_ne sec v h
  · exact lookupKey_append_single_ne sec v h

theorem getSection_cons_ne {p : String × IniSection} {d : Doc} {s : String}
    (h : p.1 ≠ s) : getSection (p :: d) s = getSection d s := by
  simp [getSection, List.find?_cons, h]

theorem getSection_cons_self {s : String} {sec : IniSection} {d : Doc} :
    getSection ((s, sec) :: d) s = some sec := by
  simp [getSection, List.find?_cons]

theorem getSection_setKey (d : Doc) (s k v s' : String) :
    getSection (setKey d s k v) s'
      = (getSection d s').map (fun sec => if s' = s then dictSet sec k v else sec) := by
  induction d with
  | nil => simp [setKey, getSection]
  | cons p d ih =>
    rw [setKey, List.map_cons]
    by_cases hp : p.1 = s
    · rw [if_pos hp]
      by_cases hs' : p.1 = s'
      · have hss : s' = s := hs' ▸ hp
        rw [← hs', getSection_cons_self (d := d)]
        rw [show ((s : String)) = p.1 from hp.symm, hs', getSection_cons_self]
        simp [hss]
      · rw [getSection_cons_ne (show ((s, dictSet p.2 k v) : String × IniSection).1 ≠ s' from hp ▸ hs'),
          getSection_cons_ne hs']
        exact ih
    · rw [if_neg hp]
      by_cases hs' : p.1 = s'
      · rcases p with ⟨ps, psec⟩
        cases hs'
        rw [getSection_cons_self, getSection_cons_self]
        simp [hp]
      · rw [getSection_cons_ne hs', getSection_cons_ne hs']
        exact ih

theorem getSection_append (d₁ d₂ : Doc) (s : String) :
    getSection (d₁ ++ d₂) s
      = match getSection d₁ s with
        | some sec => some sec
        | none => getSection d₂ s := by
  induction d₁ with
  | nil => simp [getSection]
  | cons p d₁ ih =>
    by_cases hp : p.1 = s
    · rcases p with ⟨ps, psec⟩
      cases hp
      rw [List.cons_append, getSection_cons_self, getSection_cons_self]
    · rw [List.cons_append, getSection_cons_ne hp, getSection_cons_ne hp]
      exact ih

theorem getSection_map_replace_ne (d : Doc) (s : String) (data : IniSection)
    {s' : String} (h : s' ≠ s) :
    getSection (d.map (fun p => if p.1 = s then (s, data) else p)) s'
      = getSection d s' := by
  induction d with
  | nil => simp [getSection]
  | cons p d ih =>
    rw [List.map_cons]
    by_cases hp : p.1 = s
    · rw [if_pos hp,
        getSection_cons_ne (show ((s, data) : String × IniSection).1 ≠ s' from
          fun he => h he.symm),
        getSection_cons_ne (fun he => h (hp.symm.trans he).symm)]
      exact ih
    · rw [if_neg hp]
      by_cases hs' : p.1 = s'
      · rcases p with ⟨ps, psec⟩
        cases hs'
        rw [getSection_cons_self, getSection_cons_self]
      · rw [getSection_cons_ne hs', getSection_cons_ne hs']
        exact ih

theorem getSection_setSection_ne (d : Doc) (s : String) (data : IniSection)
    {s' : String} (h : s' ≠ s) :
    getSection (setSection d s data) s' = getSection d s' := by
  unfold setSection
  split
  · exact getSection_map_replace_ne d s data h
  · rw [getSection_append]
    rcases hg : getSection d s' with - | sec
    · simp [getSection, List.find?_cons, Ne.symm h]
    · simp

theorem getSection_setSection_self (d : Doc) (s : String) (data : IniSection) :
    getSection (setSection d s data) s = some data := by
  unfold setSection
  by_cases hhas : hasSection d s = true
  · rw [if_pos hhas]
    induction d with
    | nil => simp [hasSection] at hhas
    | cons p d ih =>
      rw [List.map_cons]
      by_cases hp : p.1 = s
      · rw [if_pos hp, getSection_cons_self]
      · rw [if_neg hp, getSection_cons_ne hp]
        apply ih
        rcases hasSection_iff.mp hhas with ⟨q, hq, hqs⟩
        rcases List.mem_cons.mp hq with he | hq'
        · exact absurd (he ▸ hqs : p.1 = s) hp
        · exact hasSection_iff.mpr ⟨q, hq', hqs⟩
  · rw [if_neg hhas, getSection_append,
      getSection_eq_none_iff.mpr (Bool.not_eq_true _ ▸ hhas), getSection_cons_self]

theorem getSection_ensure_section (d : Doc) (s s' : String) :
    getSection (ensure_section d s) s'
      = match getSection d s' with
        | some sec => some sec
        | none => if s' = s then some [] else none := by
  unfold ensure_section
  by_cases hhas : hasSection d s = true
  · rw [if_pos hhas]
    rcases hg : getSection d s' with - | sec
    · by_cases he : s' = s
      · subst he
        rw [getSection_eq_none_iff.mp hg] at hhas
        cases hhas
      · simp [he]
    · simp
  · rw [if_neg hhas, getSection_append]
    rcases hg : getSection d s' with - | sec
    · by_cases he : s' = s
      · subst he
        simp [getSection, List.find?_cons]
      · simp [getSection, List.find?_cons, Ne.symm he, he]
    · simp

theorem getKey_ensure_section (d : Doc) (s s' k : String) :
    getKey (ensure_section d s) s' k = getKey d s' k := by
  unfold getKey
  rw [getSection_ensure_section]
  rcases hg : getSection d s' with - | sec
  · by_cases he : s' = s <;> simp [he, lookupKey]
  · simp

theorem getKey_setKey_self {d : Doc} {s : String} (k v : String)
    (h : hasSection d s = true) : getKey (setKey d s k v) s k = some v := by
  unfold getKey
  rw [getSection_setKey]
  rcases getSection_isSome_of_hasSection h with ⟨sec, hsec⟩
  rw [hsec]
  simp [lookupKey_dictSet_self]

theorem getKey_setKey_frame (d : Doc) (s k v s' k' : String)
    (h : s' ≠ s ∨ k' ≠ k) : getKey (setKey d s k v) s' k' = getKey d s' k' := by
  unfold getKey
  rw [getSection_setKey]
  rcases hg : getSection d s' with - | sec
  · simp
  · simp only [Option.map_some', Option.some_bind]
    by_cases hs : s' = s
    · rw [if_pos hs]
      rcases h with h | h
      · exact absurd hs h
      · exact lookupKey_dictSet_ne sec v h
    · rw [if_neg hs]

theorem getKey_setSection_self (d : Doc) (s : String) (data : IniSection)
    (k : String) : getKey (setSection d s data) s k = lookupKey data k := by
  unfold getKey
  rw [getSection_setSection_self]
  rfl

theorem getKey_setSection_ne (d : Doc) (s : String) (data : IniSection)
    {s' : String} (k : String) (h : s' ≠ s) :
    getKey (setSection d s data) s' k = getKey d s' k := by
  unfold getKey
  rw [getSection_setSection_ne d s data h]

theorem hasSection_append (d₁ d₂ : Doc) (s : String) :
    hasSection (d₁ ++ d₂) s = (hasSection d₁ s || hasSection d₂ s) := by
  simp [hasSection, List.any_append]

theorem hasSection_ensure_section_self (d : Doc) (s : String) :
    hasSection (ensure_section d s) s = true := by
  unfold ensure_section
  split
  · assumption
  · simp [hasSection_append, hasSection]

theorem setKey_map_fst (d : Doc) (s k v : String) :
    (setKey d s k v).map Prod.fst = d.map Prod.fst := by
  unfold setKey
  rw [List.map_map]
  apply List.map_congr_left
  intro p _
  by_cases hp : p.1 = s <;> simp [hp]

theorem hasSection_eq_any_map_fst (d : Doc) (s : String) :
    hasSection d s = (d.map Prod.fst).any (fun x => x = s) := by
  induction d with
  | nil => rfl
  | cons p d ih => simp [hasSection, List.any_cons] at ih ⊢; rw [ih]

theorem hasSection_setKey (d : Doc) (s k v s' : String) :
    hasSection (setKey d s k v) s' = hasSection d s' := by
  rw [hasSection_eq_any_map_fst, setKey_map_fst, ← hasSection_eq_any_map_fst]

theorem hasSection_eq_isSome (d : Doc) (s : String) :
    hasSection d s = (getSection d s).isSome := by
  rcases hg : getSection d s with - | sec
  · rw [getSection_eq_none_iff.mp hg]
    rfl
  · rcases hh : hasSection d s with - | -
    · have := getSection_eq_none_iff.mpr hh
      rw [this] at hg
      cases hg
    · rfl

theorem hasSection_setSection (d : Doc) (s : String) (data : IniSection)
    (s' : String) :
    hasSection (setSection d s data) s' = (hasSection d s' || s' == s) := by
  by_cases hs' : s' = s
  · subst hs'
    rw [hasSection_eq_isSome, getSection_setSection_self]
    simp
  · rw [hasSection_eq_isSome, getSection_setSection_ne d s data hs',
      ← hasSection_eq_isSome]
    simp [beq_iff_eq, hs']

theorem hasSection_ensure_section (d : Doc) (s s' : String) :
    hasSection (ensure_section d s) s' = (hasSection d s' || s' == s) := by
  rw [hasSection_eq_isSome, getSection_ensure_section, hasSection_eq_isSome]
  rcases getSection d s' with - | sec
  · by_cases hs' : s' = s <;> simp [beq_iff_eq, hs']
  · simp

/-! ## Well-formedness preservation -/

theorem dictSet_map_fst_of_mem {sec : IniSection} (k v : String)
    (hany : sec.any (fun q => q.1 = k) = true) :
    (dictSet sec k v).map Prod.fst = sec.map Prod.fst := by
  unfold dictSet
  rw [if_pos hany, List.map_map]
  apply List.map_congr_left
  intro q _
  by_cases hq : q.1 = k <;> simp [hq]

theorem dictSet_nodup_fst {sec : IniSection} (k v : String)
    (h : (sec.map Prod.fst).Nodup) : ((dictSet sec k v).map Prod.fst).Nodup := by
  by_cases hany : sec.any (fun q => q.1 = k) = true
  · rw [dictSet_map_fst_of_mem k v hany]
    exact h
  · unfold dictSet
    rw [if_neg hany, List.map_append]
    simp only [List.map_cons, List.map_nil]
    rw [List.nodup_append]
    refine ⟨h, List.nodup_singleton k, ?_⟩
    intro x hx
    simp only [List.mem_singleton]
    intro he
    subst he
    rcases List.mem_map.mp hx with ⟨q, hq, hqk⟩
    exact hany (List.any_eq_true.mpr ⟨q, hq, by simp [hqk]⟩)

theorem setKey_WF {d : Doc} (s k v : String) (h : DocWF d) :
    DocWF (setKey d s k v) := by
  obtain ⟨hnames, hkeys⟩ := h
  constructor
  · rw [setKey_map_fst]
    exact hnames
  · intro p hp
    rcases List.mem_map.mp hp with ⟨q, hq, hpq⟩
    subst hpq
    by_cases hqs : q.1 = s
    · rw [if_pos hqs]
      exact dictSet_nodup_fst k v (hkeys q hq)
    · rw [if_neg hqs]
      exact hkeys q hq

theorem setSection_WF {d : Doc} (s : String) {data : IniSection} (h : DocWF d)
    (hdata : (data.map Prod.fst).Nodup) : DocWF (setSection d s data) := by
  obtain ⟨hnames, hkeys⟩ := h
  unfold setSection
  by_cases hhas : hasSection d s = true
  · rw [if_pos hhas]
    constructor
    · rw [List.map_map]
      rw [List.map_congr_left (g := Prod.fst)
        (fun p _ => by by_cases hp : p.1 = s <;> simp [hp])]
      exact hnames
    · intro p hp
      rcases List.mem_map.mp hp with ⟨q, hq, hpq⟩
      subst hpq
      by_cases hqs : q.1 = s
      · rw [if_pos hqs]
        exact hdata
      · rw [if_neg hqs]
        exact hkeys q hq
  · rw [if_neg hhas]
    constructor
    · rw [List.map_append]
      simp only [List.map_cons, List.map_nil]
      rw [List.nodup_append]
      refine ⟨hnames, List.nodup_singleton s, ?_⟩
      intro x hx
      simp only [List.mem_singleton]
      intro he
      subst he
      rcases List.mem_map.mp hx with ⟨q, hq, hqs⟩
      exact hhas (hasSection_iff.mpr ⟨q, hq, hqs⟩)
    · intro p hp
      rcases List.mem_append.mp hp with hp | hp
      · exact hkeys p hp
      · rcases List.mem_singleton.mp hp with he
        subst he
        exact hdata

theorem ensure_section_WF {d : Doc} (s : String) (h : DocWF d) :
    DocWF (ensure_section d s) := by
  obtain ⟨hnames, hkeys⟩ := h
  unfold ensure_section
  by_cases hhas : hasSection d s = true
  · rw [if_pos hhas]
    exact ⟨hnames, hkeys⟩
  · rw [if_neg hhas]
    constructor
    · rw [List.map_append]
      simp only [List.map_cons, List.map_nil]
      rw [List.nodup_append]
      refine ⟨hnames, List.nodup_singleton s, ?_⟩
      intro x hx
      simp only [List.mem_singleton]
      intro he
      subst he
      rcases List.mem_map.mp hx with ⟨q, hq, hqs⟩
      exact hhas (hasSection_iff.mpr ⟨q, hq, hqs⟩)
    · intro p hp
      rcases List.mem_append.mp hp with hp | hp
      · exact hkeys p hp
      · rcases List.mem_singleton.mp hp with he
        subst he
        simp

theorem maybe_preserve_key_WF {tmpl : Doc} (tgt : Doc) (s k : String)
    (h : DocWF tmpl) : DocWF (maybe_preserve_key tmpl tgt s k) := by
  unfold maybe_preserve_key
  rcases getKey tgt s k with - | v
  · exact h
  · exact setKey_WF s k v (ensure_section_WF s h)

/-! ## The `restore_ignored` loop -/

theorem restore_ignored_nil (ip : String → Bool) (data : IniSection) :
    SetupcfgMerge.restore_ignored ip [] data = data := rfl

theorem restore_ignored_cons (ip : String → Bool) (kv : String × String)
    (tsec data : IniSection) :
    SetupcfgMerge.restore_ignored ip (kv :: tsec) data
      = SetupcfgMerge.restore_ignored ip tsec
          (if ip kv.1 = true then dictSet data kv.1 kv.2 else data) := rfl

theorem restore_ignored_nodup_fst (ip : String → Bool) :
    ∀ (tsec data : IniSection), (data.map Prod.fst).Nodup →
      ((SetupcfgMerge.restore_ignored ip tsec data).map Prod.fst).Nodup
  | [], data, h => h
  | kv :: tsec, data, h => by
    rw [restore_ignored_cons]
    by_cases hip : ip kv.1 = true
    · rw [if_pos hip]
      exact restore_ignored_nodup_fst ip tsec _ (dictSet_nodup_fst kv.1 kv.2 h)
    · rw [if_neg hip]
      exact restore_ignored_nodup_fst ip tsec data h

theorem lookupKey_restore_ignored_frame (ip : String → Bool) :
    ∀ (tsec data : IniSection) (k : String), lookupKey tsec k = none →
      lookupKey (SetupcfgMerge.restore_ignored ip tsec data) k = lookupKey data k
  | [], data, k, _ => rfl
  | kv :: tsec, data, k, h => by
    have hk : kv.1 ≠ k := by
      intro he
      rcases kv with ⟨kk, kvv⟩
      cases he
      simp [lookupKey, List.find?_cons] at h
    have htail : lookupKey tsec k = none := by
      rw [← lookupKey_cons_ne hk]
      exact h
    rw [restore_ignored_cons]
    by_cases hip : ip kv.1 = true
    · rw [if_pos hip, lookupKey_restore_ignored_frame ip tsec _ k htail]
      exact lookupKey_dictSet_ne data kv.2 (Ne.symm hk)
    · rw [if_neg hip]
      exact lookupKey_restore_ignored_frame ip tsec data k htail

theorem lookupKey_restore_ignored (ip : String → Bool) :
    ∀ (tsec data : IniSection) (k : String), (tsec.map Prod.fst).Nodup →
      lookupKey (SetupcfgMerge.restore_ignored ip tsec data) k
        = match (if ip k = true then lookupKey tsec k else none) with
          | some v => some v
          | none => lookupKey data k
  | [], data, k, _ => by
    rcases hip : ip k <;> simp [lookupKey, restore_ignored_nil]
  | kv :: tsec, data, k, h => by
    rw [List.map_cons, List.nodup_cons] at h
    obtain ⟨hnotin, hnodup⟩ := h
    rw [restore_ignored_cons]
    by_cases hk : kv.1 = k
    · have htail : lookupKey tsec k = none := by
        rcases hf : tsec.find? (fun q => q.1 = k) with - | q
        · simp [lookupKey, hf]
        · have hq := List.find?_some hf
          have hm := List.mem_of_find?_eq_some hf
          simp only [decide_eq_true_eq] at hq
          exact absurd (List.mem_map.mpr ⟨q, hm, hq.trans hk.symm⟩) hnotin
      by_cases hip : ip kv.1 = true
      · subst hk
        rw [if_pos hip, lookupKey_restore_ignored_frame ip tsec _ _ htail,
          lookupKey_dictSet_self, if_pos hip]
        simp [lookupKey, List.find?_cons]
      · subst hk
        rw [if_neg hip, lookupKey_restore_ignored_frame ip tsec data _ htail,
          if_neg hip]
    · rw [lookupKey_restore_ignored ip tsec _ k hnodup,
        lookupKey_cons_ne hk]
      by_cases hip : ip kv.1 = true
      · rw [if_pos hip]
        rcases hu : (if ip k = true then lookupKey tsec k else none) with - | v
        · simp only [hu]
          exact lookupKey_dictSet_ne data kv.2 (Ne.symm hk)
        · simp [hu]
      · rw [if_neg hip]

/-! ## Serialization preserves lookups on well-formed documents -/

theorem find?_perm_of_unique {α : Type} {l l' : List α} (h : l.Perm l')
    {p : α → Bool}
    (uniq : ∀ a ∈ l, ∀ b ∈ l, p a = true → p b = true → a = b) :
    l.find? p = l'.find? p := by
  rcases hf : l.find? p with - | a
  · rw [List.find?_eq_none] at hf
    symm
    rw [List.find?_eq_none]
    intro x hx
    exact hf x (h.mem_iff.mpr hx)
  · have hpa := List.find?_some hf
    have hma := List.mem_of_find?_eq_some hf
    have hsome : (l'.find? p).isSome = true :=
      List.find?_isSome.mpr ⟨a, h.mem_iff.mp hma, hpa⟩
    rcases hf' : l'.find? p with - | b
    · rw [hf'] at hsome
      cases hsome
    · have hpb := List.find?_some hf'
      have hmb := List.mem_of_find?_eq_some hf'
      rw [uniq a hma b (h.mem_iff.mpr hmb) hpa hpb]

theorem eq_of_fst_eq_of_nodup {α β : Type} :
    ∀ {d : List (α × β)}, (d.map Prod.fst).Nodup →
      ∀ a ∈ d, ∀ b ∈ d, a.1 = b.1 → a = b
  | [], _, a, ha, _, _, _ => absurd ha (List.not_mem_nil a)
  | p :: d, h, a, ha, b, hb, hab => by
    rw [List.map_cons, List.nodup_cons] at h
    obtain ⟨hnotin, hnodup⟩ := h
    rcases List.mem_cons.mp ha with ha | ha
    · rcases List.mem_cons.mp hb with hb | hb
      · exact ha.trans hb.symm
      · have hbp : b.1 = p.1 := hab.symm.trans (congrArg Prod.fst ha)
        exact absurd (List.mem_map.mpr ⟨b, hb, hbp⟩) hnotin
    · rcases List.mem_cons.mp hb with hb | hb
      · have hap : a.1 = p.1 := hab.trans (congrArg Prod.fst hb)
        exact absurd (List.mem_map.mpr ⟨a, ha, hap⟩) hnotin
      · exact eq_of_fst_eq_of_nodup hnodup a ha b hb hab

theorem getSection_insertionSort {d : Doc} (h : (d.map Prod.fst).Nodup)
    (s : String) :
    getSection (List.insertionSort fstLe d) s = getSection d s := by
  unfold getSection
  rw [find?_perm_of_unique (List.perm_insertionSort fstLe d)]
  intro a ha b hb hpa hpb
  simp only [decide_eq_true_eq] at hpa hpb
  exact eq_of_fst_eq_of_nodup h a
    ((List.perm_insertionSort fstLe d).mem_iff.mp ha) b
    ((List.perm_insertionSort fstLe d).mem_iff.mp hb) (hpa.trans hpb.symm)

theorem lookupKey_insertionSort {sec : IniSection}
    (h : (sec.map Prod.fst).Nodup) (k : String) :
    lookupKey (List.insertionSort fstLe sec) k = lookupKey sec k := by
  unfold lookupKey
  rw [find?_perm_of_unique (List.perm_insertionSort fstLe sec)]
  intro a ha b hb hpa hpb
  simp only [decide_eq_true_eq] at hpa hpb
  exact eq_of_fst_eq_of_nodup h a
    ((List.perm_insertionSort fstLe sec).mem_iff.mp ha) b
    ((List.perm_insertionSort fstLe sec).mem_iff.mp hb) (hpa.trans hpb.symm)

theorem getSection_map_sortsec (d : Doc) (s : String) :
    getSection (d.map (fun p => (p.1, List.insertionSort fstLe p.2))) s
      = (getSection d s).map (fun sec => List.insertionSort fstLe sec) := by
  induction d with
  | nil => simp [getSection]
  | cons p d ih =>
    by_cases hp : p.1 = s
    · rcases p with ⟨ps, psec⟩
      cases hp
      rw [List.map_cons]
      rw [getSection_cons_self, getSection_cons_self]
      rfl
    · rw [List.map_cons,
        getSection_cons_ne
          (show ((p.1, List.insertionSort fstLe p.2) : String × IniSection).1 ≠ s
            from hp),
        getSection_cons_ne hp]
      exact ih

theorem getKey_pretty {d : Doc} (h : DocWF d) (s k : String) :
    getKey (parser_to_pretty_output d) s k = getKey d s k := by
  obtain ⟨hnames, hkeys⟩ := h
  unfold parser_to_pretty_output getKey
  rw [getSection_map_sortsec, getSection_insertionSort hnames]
  rcases hg : getSection d s with - | sec
  · rfl
  · simp only [Option.map_some', Option.some_bind]
    exact lookupKey_insertionSort (hkeys (s, sec) (getSection_mem hg)) k

theorem pretty_WF {d : Doc} (h : DocWF d) : DocWF (parser_to_pretty_output d) := by
  obtain ⟨hnames, hkeys⟩ := h
  constructor
  · unfold parser_to_pretty_output
    have he : (List.insertionSort fstLe d).map
          (Prod.fst ∘ fun p => (p.1, List.insertionSort fstLe p.2))
        = (List.insertionSort fstLe d).map Prod.fst :=
      List.map_congr_left (fun p _ => rfl)
    rw [List.map_map, he]
    exact ((List.perm_insertionSort fstLe d).map Prod.fst).nodup_iff.mpr hnames
  · intro p hp
    unfold parser_to_pretty_output at hp
    rcases List.mem_map.mp hp with ⟨q, hq, hpq⟩
    subst hpq
    have hq' := (List.perm_insertionSort fstLe d).mem_iff.mp hq
    exact ((List.perm_insertionSort fstLe q.2).map Prod.fst).nodup_iff.mpr
      (hkeys q hq')

/-! ## Characterization of `_maybe_preserve_sections` -/

namespace SetupcfgMerge

theorem mps_nil (tmpl : Doc) (pat : String → Bool)
    (ip : Option (String → Bool)) :
    maybe_preserve_sections tmpl [] pat ip = some tmpl := rfl

theorem mps_frame :
    ∀ (tgt tmpl : Doc) (pat : String → Bool) (ip : Option (String → Bool))
      (d' : Doc), maybe_preserve_sections tmpl tgt pat ip = some d' →
      ∀ s k, (∀ e ∈ tgt, e.1 = s → pat s = false) →
        getKey d' s k = getKey tmpl s k
  | [], tmpl, pat, ip, d', h, s, k, _ => by
    rw [mps_nil] at h
    cases h
    rfl
  | e :: rest, tmpl, pat, ip, d', h, s, k, hnot => by
    have hs : e.1 = s → pat s = false := hnot e (List.mem_cons_self e rest)
    have hnotrest : ∀ e' ∈ rest, e'.1 = s → pat s = false :=
      fun e' he' => hnot e' (List.mem_cons_of_mem e he')
    unfold maybe_preserve_sections at h
    by_cases hp : pat e.1 = true
    · rw [if_pos hp] at h
      have hes : e.1 ≠ s := by
        intro he
        have hf := hs he
        rw [← he, hp] at hf
        cases hf
      rcases ip with - | ipf
      · rw [mps_frame rest _ pat none d' h s k hnotrest]
        exact getKey_setSection_ne tmpl e.1 e.2 k (Ne.symm hes)
      · rcases hg : getSection tmpl e.1 with - | tsec
        · rw [hg] at h
          cases h
        · rw [hg] at h
          rw [mps_frame rest _ pat (some ipf) d' h s k hnotrest]
          exact getKey_setSection_ne tmpl e.1 _ k (Ne.symm hes)
    · rw [if_neg hp] at h
      exact mps_frame rest tmpl pat ip d' h s k hnotrest

theorem mps_matched :
    ∀ (tgt tmpl : Doc) (pat : String → Bool) (ip : Option (String → Bool))
      (d' : Doc), maybe_preserve_sections tmpl tgt pat ip = some d' →
      DocWF tmpl → DocWF tgt →
      ∀ e ∈ tgt, pat e.1 = true → ∀ k,
        getKey d' e.1 k
          = match ip with
            | none => lookupKey e.2 k
            | some ipf =>
              match (if ipf k = true then getKey tmpl e.1 k else none) with
              | some v => some v
              | none => lookupKey e.2 k
  | [], _, _, _, _, _, _, _, e, he, _, _ => absurd he (List.not_mem_nil e)
  | e₀ :: rest, tmpl, pat, ip, d', h, hwt, hwg, e, he, hpe, k => by
    obtain ⟨hgnames, hgkeys⟩ := hwg
    rw [List.map_cons, List.nodup_cons] at hgnames
    obtain ⟨hg₀, hgrest⟩ := hgnames
    have hwgrest : DocWF rest :=
      ⟨hgrest, fun p hp => hgkeys p (List.mem_cons_of_mem e₀ hp)⟩
    unfold maybe_preserve_sections at h
    rcases List.mem_cons.mp he with he | he
    · subst he
      rw [if_pos hpe] at h
      have hnotrest : ∀ e' ∈ rest, e'.1 = e.1 → pat e.1 = false := by
        intro e' he' hee
        exact absurd (List.mem_map.mpr ⟨e', he', hee⟩) hg₀
      rcases ip with - | ipf
      · rw [mps_frame rest _ pat none d' h e.1 k hnotrest,
          getKey_setSection_self]
      · rcases hg : getSection tmpl e.1 with - | tsec
        · rw [hg] at h
          cases h
        · rw [hg] at h
          rw [mps_frame rest _ pat (some ipf) d' h e.1 k hnotrest,
            getKey_setSection_self,
            lookupKey_restore_ignored ipf tsec e.2 k
              (hwt.2 (e.1, tsec) (getSection_mem hg))]
          have hkey : getKey tmpl e.1 k = lookupKey tsec k := by
            unfold getKey
            rw [hg]
            rfl
          rw [hkey]
    · have hee : e.1 ≠ e₀.1 := by
        intro hee
        exact absurd (List.mem_map.mpr ⟨e, he, hee⟩) hg₀
      by_cases hp : pat e₀.1 = true
      · rw [if_pos hp] at h
        rcases ip with - | ipf
        · exact mps_matched rest _ pat none d' h
            (setSection_WF e₀.1 hwt (hgkeys e₀ (List.mem_cons_self e₀ rest)))
            hwgrest e he hpe k
        · rcases hg : getSection tmpl e₀.1 with - | tsec
          · rw [hg] at h
            cases h
          · rw [hg] at h
            have hrec := mps_matched rest _ pat (some ipf) d' h
              (setSection_WF e₀.1 hwt
                (restore_ignored_nodup_fst ipf tsec e₀.2
                  (hgkeys e₀ (List.mem_cons_self e₀ rest))))
              hwgrest e he hpe k
            rw [hrec, getKey_setSection_ne tmpl e₀.1 _ k hee]
      · rw [if_neg hp] at h
        exact mps_matched rest tmpl pat ip d' h hwt hwgrest e he hpe k

theorem mps_matched_some (tgt tmpl : Doc) (pat ipf : String → Bool) (d' : Doc)
    (h : maybe_preserve_sections tmpl tgt pat (some ipf) = some d')
    (hwt : DocWF tmpl) (hwg : DocWF tgt) :
    ∀ e ∈ tgt, pat e.1 = true → ∀ k,
      getKey d' e.1 k
        = match (if ipf k = true then getKey tmpl e.1 k else none) with
          | some v => some v
          | none => lookupKey e.2 k :=
  mps_matched tgt tmpl pat (some ipf) d' h hwt hwg

theorem mps_WF :
    ∀ (tgt tmpl : Doc) (pat : String → Bool) (ip : Option (String → Bool))
      (d' : Doc), maybe_preserve_sections tmpl tgt pat ip = some d' →
      DocWF tmpl → (∀ p ∈ tgt, (p.2.map Prod.fst).Nodup) → DocWF d'
  | [], tmpl, pat, ip, d', h, hwt, _ => by
    rw [mps_nil] at h
    cases h
    exact hwt
  | e :: rest, tmpl, pat, ip, d', h, hwt, hkeys => by
    have hkrest : ∀ p ∈ rest, (p.2.map Prod.fst).Nodup :=
      fun p hp => hkeys p (List.mem_cons_of_mem e hp)
    unfold maybe_preserve_sections at h
    by_cases hp : pat e.1 = true
    · rw [if_pos hp] at h
      rcases ip with - | ipf
      · exact mps_WF rest _ pat none d' h
          (setSection_WF e.1 hwt (hkeys e (List.mem_cons_self e rest))) hkrest
      · rcases hg : getSection tmpl e.1 with - | tsec
        · rw [hg] at h
          cases h
        · rw [hg] at h
          exact mps_WF rest _ pat (some ipf) d' h
            (setSection_WF e.1 hwt
              (restore_ignored_nodup_fst ipf tsec e.2
                (hkeys e (List.mem_cons_self e rest)))) hkrest
    · rw [if_neg hp] at h
      exact mps_WF rest tmpl pat ip d' h hwt hkrest

theorem mps_none_isSome :
    ∀ (tgt tmpl : Doc) (pat : String → Bool),
      ∃ d', maybe_preserve_sections tmpl tgt pat none = some d'
  | [], tmpl, pat => ⟨tmpl, rfl⟩
  | e :: rest, tmpl, pat => by
    unfold maybe_preserve_sections
    by_cases hp : pat e.1 = true
    · rw [if_pos hp]
      exact mps_none_isSome rest _ pat
    · rw [if_neg hp]
      exact mps_none_isSome rest tmpl pat

theorem mps_hasSection :
    ∀ (tgt tmpl : Doc) (pat : String → Bool) (ip : Option (String → Bool))
      (d' : Doc), maybe_preserve_sections tmpl tgt pat ip = some d' →
      ∀ s, hasSection d' s = true ↔
        (hasSection tmpl s = true ∨ ∃ e ∈ tgt, e.1 = s ∧ pat e.1 = true)
  | [], tmpl, pat, ip, d', h, s => by
    rw [mps_nil] at h
    cases h
    simp
  | e :: rest, tmpl, pat, ip, d', h, s => by
    unfold maybe_preserve_sections at h
    by_cases hp : pat e.1 = true
    · have hstep : ∀ data, maybe_preserve_sections (setSection tmpl e.1 data) rest
          pat ip = some d' →
          (hasSection d' s = true ↔
            (hasSection tmpl s = true ∨ ∃ e' ∈ e :: rest, e'.1 = s ∧ pat e'.1 = true)) := by
        intro data hrec
        rw [mps_hasSection rest _ pat ip d' hrec s, hasSection_setSection]
        constructor
        · rintro (hor | hex)
          · rcases Bool.or_eq_true_iff.mp hor with hor | hor
            · exact Or.inl hor
            · exact Or.inr ⟨e, List.mem_cons_self e rest,
                (show s = e.1 by simpa using hor).symm, hp⟩
          · rcases hex with ⟨e', he', hes, hpe⟩
            exact Or.inr ⟨e', List.mem_cons_of_mem e he', hes, hpe⟩
        · rintro (hor | ⟨e', he', hes, hpe⟩)
          · exact Or.inl (by rw [hor]; rfl)
          · rcases List.mem_cons.mp he' with he' | he'
            · subst he'
              exact Or.inl (by simp [hes])
            · exact Or.inr ⟨e', he', hes, hpe⟩
      rw [if_pos hp] at h
      rcases ip with - | ipf
      · exact hstep e.2 h
      · rcases hg : getSection tmpl e.1 with - | tsec
        · rw [hg] at h
          cases h
        · rw [hg] at h
          exact hstep _ h
    · rw [if_neg hp] at h
      rw [mps_hasSection rest tmpl pat ip d' h s]
      constructor
      · rintro (hor | ⟨e', he', hes, hpe⟩)
        · exact Or.inl hor
        · exact Or.inr ⟨e', List.mem_cons_of_mem e he', hes, hpe⟩
      · rintro (hor | ⟨e', he', hes, hpe⟩)
        · exact Or.inl hor
        · rcases List.mem_cons.mp he' with he' | he'
          · subst he'
            exact absurd hpe hp
          · exact Or.inr ⟨e', he', hes, hpe⟩

theorem mps_some_isSome_iff :
    ∀ (tgt tmpl : Doc) (pat ipf : String → Bool),
      (∃ d', maybe_preserve_sections tmpl tgt pat (some ipf) = some d') ↔
        ∀ e ∈ tgt, pat e.1 = true → hasSection tmpl e.1 = true
  | [], tmpl, pat, ipf => by
    simp [mps_nil]
  | e :: rest, tmpl, pat, ipf => by
    unfold maybe_preserve_sections
    by_cases hp : pat e.1 = true
    · rw [if_pos hp]
      rcases hg : getSection tmpl e.1 with - | tsec
      · constructor
        · rintro ⟨d', hd'⟩
          cases hd'
        · intro hall
          have htrue := hall e (List.mem_cons_self e rest) hp
          rw [getSection_eq_none_iff.mp hg] at htrue
          cases htrue
      · rw [mps_some_isSome_iff rest _ pat ipf]
        have hhas : hasSection tmpl e.1 = true := by
          rw [hasSection_eq_isSome, hg]
          rfl
        constructor
        · intro hall e' he' hpe'
          rcases List.mem_cons.mp he' with he' | he'
          · subst he'
            exact hhas
          · have := hall e' he' hpe'
            rw [hasSection_setSection] at this
            rcases Bool.or_eq_true_iff.mp this with h | h
            · exact h
            · rw [show e'.1 = e.1 from by simpa using h]
              exact hhas
        · intro hall e' he' hpe'
          rw [hasSection_setSection]
          exact Bool.or_eq_true_iff.mpr
            (Or.inl (hall e' (List.mem_cons_of_mem e he') hpe'))
    · rw [if_neg hp, mps_some_isSome_iff rest tmpl pat ipf]
      constructor
      · intro hall e' he' hpe'
        rcases List.mem_cons.mp he' with he' | he'
        · subst he'
          exact absurd hpe' hp
        · exact hall e' he' hpe'
      · intro hall e' he' hpe'
        exact hall e' (List.mem_cons_of_mem e he') hpe'

end SetupcfgMerge

/-! ## Regex pattern facts -/

theorem reDotExact_nil_right (p : Char) (ps : List Char) :
    reDotExact (p :: ps) [] = false := rfl

theorem reDotExact_cons (p : Char) (ps : List Char) (c : Char) (cs : List Char) :
    reDotExact (p :: ps) (c :: cs) = (reDotCharMatch p c && reDotExact ps cs) := rfl

theorem reDotExact_length :
    ∀ pat s, reDotExact pat s = true → pat.length = s.length
  | [], [], _ => rfl
  | [], _ :: _, h => by cases h
  | _ :: _, [], h => by rw [reDotExact_nil_right] at h; cases h
  | p :: ps, c :: cs, h => by
    rw [reDotExact_cons, Bool.and_eq_true] at h
    simp [reDotExact_length ps cs h.2]

theorem pat_extras_require_head {s : String}
    (h : SetupcfgMerge.pat_extras_require s = true) :
    ∃ cs, s.data = 'o' :: cs := by
  unfold SetupcfgMerge.pat_extras_require at h
  rcases hs : s.data with - | ⟨c, cs⟩
  · rw [hs, show ("options.extras_require".data) = 'o' :: "ptions.extras_require".data
      from rfl, reDotExact_nil_right] at h
    cases h
  · rw [hs, show ("options.extras_require".data) = 'o' :: "ptions.extras_require".data
      from rfl, reDotExact_cons, Bool.and_eq_true] at h
    have hc := h.1
    rw [show reDotCharMatch 'o' c = decide ('o' = c) from rfl] at hc
    simp only [decide_eq_true_eq] at hc
    exact ⟨cs, congrArg (fun x => x :: cs) hc.symm⟩

theorem pat_extras_require_disjoint {s : String}
    (h : SetupcfgMerge.pat_extras_require s = true) :
    SetupcfgMerge.pat_freebsd s = false ∧ SetupcfgMerge.pat_mypy s = false ∧
      SetupcfgMerge.pat_data_files s = false ∧
      SetupcfgMerge.pat_entry_points s = false := by
  have hlen : s.data.length = 22 :=
    (reDotExact_length _ _ h).symm.trans (by rfl)
  refine ⟨?_, ?_, ?_, ?_⟩
  · by_cases he : s = "freebsd"
    · subst he
      cases h
    · simp [SetupcfgMerge.pat_freebsd, he]
  · rcases pat_extras_require_head h with ⟨cs, hcs⟩
    unfold SetupcfgMerge.pat_mypy
    rw [hcs]
    rfl
  · rcases hd : SetupcfgMerge.pat_data_files s with - | -
    · rfl
    · have := reDotExact_length _ _ hd
      rw [hlen] at this
      cases this
  · rcases hd : SetupcfgMerge.pat_entry_points s with - | -
    · rfl
    · have := reDotExact_length _ _ hd
      rw [hlen] at this
      cases this

/-! ## Lemmas about `_merge_requirements` and `_maybe_preserve_key` -/

theorem getKey_maybe_preserve_key_self (tmpl tgt : Doc) (sec key : String) :
    getKey (maybe_preserve_key tmpl tgt sec key) sec key
      = match getKey tgt sec key with
        | some v => some v
        | none => getKey tmpl sec key := by
  unfold maybe_preserve_key
  rcases getKey tgt sec key with - | v
  · rfl
  · exact getKey_setKey_self key v (hasSection_ensure_section_self tmpl sec)

theorem getKey_maybe_preserve_key_frame (tmpl tgt : Doc) (sec key s k : String)
    (h : ¬(s = sec ∧ k = key)) :
    getKey (maybe_preserve_key tmpl tgt sec key) s k = getKey tmpl s k := by
  unfold maybe_preserve_key
  rcases getKey tgt sec key with - | v
  · rfl
  · have hor : s ≠ sec ∨ k ≠ key := by
      by_cases hs : s = sec
      · exact Or.inr (fun hk => h ⟨hs, hk⟩)
      · exact Or.inl hs
    rw [getKey_setKey_frame _ _ _ _ _ _ hor, getKey_ensure_section]

theorem merge_requirements_WF {d : Doc} (tgtp : Option Doc) (sec key : String)
    (h : DocWF d) : DocWF (SetupcfgMerge.merge_requirements d tgtp sec key) := by
  unfold SetupcfgMerge.merge_requirements
  exact setKey_WF sec key _ (ensure_section_WF sec h)

theorem getKey_merge_requirements_self (d : Doc) (tgtp : Option Doc)
    (sec key : String) :
    getKey (SetupcfgMerge.merge_requirements d tgtp sec key) sec key
      = some (dump_setupcfg_requirements
          (SetupcfgMerge.merge_requirements_list
            (SetupcfgMerge.parse_requirements_at d sec key)
            (match tgtp with
             | some t => SetupcfgMerge.parse_requirements_at t sec key
             | none => []))) := by
  unfold SetupcfgMerge.merge_requirements
  exact getKey_setKey_self key _ (hasSection_ensure_section_self d sec)

theorem getKey_merge_requirements_frame (d : Doc) (tgtp : Option Doc)
    (sec key s k : String) (h : ¬(s = sec ∧ k = key)) :
    getKey (SetupcfgMerge.merge_requirements d tgtp sec key) s k
      = getKey d s k := by
  unfold SetupcfgMerge.merge_requirements
  have hor : s ≠ sec ∨ k ≠ key := by
    by_cases hs : s = sec
    · exact Or.inr (fun hk => h ⟨hs, hk⟩)
    · exact Or.inl hs
  rw [getKey_setKey_frame _ _ _ _ _ _ hor, getKey_ensure_section]

/-! ## Inversion of `SetupcfgMerge.apply` on a present target -/

theorem SetupcfgMerge.apply_some_unfold (tmpl tgt : Doc) :
    SetupcfgMerge.apply tmpl (some tgt)
      = (SetupcfgMerge.maybe_preserve_sections tmpl tgt SetupcfgMerge.pat_freebsd
          none).bind (fun d₁ =>
        (SetupcfgMerge.maybe_preserve_sections d₁ tgt SetupcfgMerge.pat_mypy
          none).bind (fun d₂ =>
        (SetupcfgMerge.maybe_preserve_sections d₂ tgt SetupcfgMerge.pat_data_files
          none).bind (fun d₃ =>
        (SetupcfgMerge.maybe_preserve_sections d₃ tgt SetupcfgMerge.pat_entry_points
          none).bind (fun d₄ =>
        (SetupcfgMerge.maybe_preserve_sections d₄ tgt
          SetupcfgMerge.pat_extras_require (some SetupcfgMerge.pat_develop)).bind
          (fun d₅ =>
        some (parser_to_pretty_output
          (SetupcfgMerge.merge_requirements
            (SetupcfgMerge.merge_requirements
              (maybe_preserve_key
                (maybe_preserve_key d₅ tgt "tool:pytest" "testpaths")
                tgt "build" "executable")
              (some tgt) "options.extras_require" "develop")
            (some tgt) "options" "install_requires"))))))) := rfl

theorem SetupcfgMerge.apply_some_inv (tmpl tgt out : Doc)
    (h : SetupcfgMerge.apply tmpl (some tgt) = some out) :
    ∃ d₁ d₂ d₃ d₄ d₅,
      SetupcfgMerge.maybe_preserve_sections tmpl tgt SetupcfgMerge.pat_freebsd none
          = some d₁ ∧
      SetupcfgMerge.maybe_preserve_sections d₁ tgt SetupcfgMerge.pat_mypy none
          = some d₂ ∧
      SetupcfgMerge.maybe_preserve_sections d₂ tgt SetupcfgMerge.pat_data_files none
          = some d₃ ∧
      SetupcfgMerge.maybe_preserve_sections d₃ tgt SetupcfgMerge.pat_entry_points
          none = some d₄ ∧
      SetupcfgMerge.maybe_preserve_sections d₄ tgt SetupcfgMerge.pat_extras_require
          (some SetupcfgMerge.pat_develop) = some d₅ ∧
      out = parser_to_pretty_output
        (SetupcfgMerge.merge_requirements
          (SetupcfgMerge.merge_requirements
            (maybe_preserve_key
              (maybe_preserve_key d₅ tgt "tool:pytest" "testpaths")
              tgt "build" "executable")
            (some tgt) "options.extras_require" "develop")
          (some tgt) "options" "install_requires") := by
  rw [SetupcfgMerge.apply_some_unfold] at h
  rcases h₁ : SetupcfgMerge.maybe_preserve_sections tmpl tgt
      SetupcfgMerge.pat_freebsd none with - | d₁ <;> rw [h₁] at h
  · cases h
  rw [Option.some_bind] at h
  rcases h₂ : SetupcfgMerge.maybe_preserve_sections d₁ tgt
      SetupcfgMerge.pat_mypy none with - | d₂ <;> rw [h₂] at h
  · cases h
  rw [Option.some_bind] at h
  rcases h₃ : SetupcfgMerge.maybe_preserve_sections d₂ tgt
      SetupcfgMerge.pat_data_files none with - | d₃ <;> rw [h₃] at h
  · cases h
  rw [Option.some_bind] at h
  rcases h₄ : SetupcfgMerge.maybe_preserve_sections d₃ tgt
      SetupcfgMerge.pat_entry_points none with - | d₄ <;> rw [h₄] at h
  · cases h
  rw [Option.some_bind] at h
  rcases h₅ : SetupcfgMerge.maybe_preserve_sections d₄ tgt
      SetupcfgMerge.pat_extras_require (some SetupcfgMerge.pat_develop)
      with - | d₅ <;> rw [h₅] at h
  · cases h
  rw [Option.some_bind] at h
  exact ⟨d₁, d₂, d₃, d₄, d₅, rfl, h₂, h₃, h₄, h₅,
    (Option.some_inj.mp h).symm⟩

/-! ## The list-level requirement merge -/

theorem foldl_append_filter (names : List String) :
    ∀ (l acc : List String),
      l.foldl (fun acc r =>
        if names.contains (normalize_requirement r) then acc else acc ++ [r]) acc
      = acc ++ l.filter (fun r => !names.contains (normalize_requirement r))
  | [], acc => by simp
  | r :: l, acc => by
    rw [List.foldl_cons]
    by_cases hr : names.contains (normalize_requirement r) = true
    · rw [if_pos hr, foldl_append_filter names l acc, List.filter_cons,
        show (!names.contains (normalize_requirement r)) = false from by
          rw [hr]; rfl]
      simp
    · rw [if_neg hr, foldl_append_filter names l (acc ++ [r]), List.filter_cons,
        show (!names.contains (normalize_requirement r)) = true from by
          rw [Bool.eq_false_iff.mpr hr]; rfl]
      simp

theorem merge_requirements_list_eq
    (template_requirements target_requirements : List String) :
    SetupcfgMerge.merge_requirements_list template_requirements target_requirements
      = List.insertionSort reqR
          (target_requirements ++ template_requirements.filter (fun r =>
            !(target_requirements.map normalize_requirement).contains
              (normalize_requirement r))) := by
  rw [show SetupcfgMerge.merge_requirements_list template_requirements
        target_requirements
      = List.insertionSort reqR
          (template_requirements.foldl (fun acc r =>
            if (target_requirements.map normalize_requirement).contains
              (normalize_requirement r) then acc else acc ++ [r])
            target_requirements) from rfl,
    foldl_append_filter]

theorem mem_merge_requirements_list_iff
    {template_requirements target_requirements : List String} {r : String} :
    r ∈ SetupcfgMerge.merge_requirements_list template_requirements
        target_requirements
      ↔ (r ∈ target_requirements ∨
          (r ∈ template_requirements ∧
            normalize_requirement r ∉
              target_requirements.map normalize_requirement)) := by
  rw [merge_requirements_list_eq]
  rw [(List.perm_insertionSort reqR _).mem_iff]
  rw [List.mem_append, List.mem_filter]
  constructor
  · rintro (h | ⟨hm, hf⟩)
    · exact Or.inl h
    · refine Or.inr ⟨hm, ?_⟩
      intro hc
      rw [show (target_requirements.map normalize_requirement).contains
          (normalize_requirement r) = true from List.elem_iff.mpr hc] at hf
      cases hf
  · rintro (h | ⟨hm, hn⟩)
    · exact Or.inl h
    · refine Or.inr ⟨hm, ?_⟩
      rcases hc : (target_requirements.map normalize_requirement).contains
          (normalize_requirement r) with - | -
      · rfl
      · exact absurd (List.elem_iff.mp hc) hn

theorem merge_requirements_list_sorted
    (template_requirements target_requirements : List String) :
    List.Sorted reqR (SetupcfgMerge.merge_requirements_list template_requirements
      target_requirements) := by
  unfold SetupcfgMerge.merge_requirements_list
  exact List.sorted_insertionSort reqR _

theorem SetupcfgMerge.apply_none_unfold (tmpl : Doc) :
    SetupcfgMerge.apply tmpl none
      = some (parser_to_pretty_output
          (SetupcfgMerge.merge_requirements
            (SetupcfgMerge.merge_requirements tmpl none "options.extras_require"
              "develop")
            none "options" "install_requires")) := rfl

/-- Through the four plain preservation steps, the presence of a section whose name
matches the extras-require pattern is unchanged, by pattern disjointness. -/
theorem hasSection_through_presteps {tmpl tgt d₁ d₂ d₃ d₄ : Doc}
    (h₁ : SetupcfgMerge.maybe_preserve_sections tmpl tgt SetupcfgMerge.pat_freebsd
      none = some d₁)
    (h₂ : SetupcfgMerge.maybe_preserve_sections d₁ tgt SetupcfgMerge.pat_mypy none
      = some d₂)
    (h₃ : SetupcfgMerge.maybe_preserve_sections d₂ tgt SetupcfgMerge.pat_data_files
      none = some d₃)
    (h₄ : SetupcfgMerge.maybe_preserve_sections d₃ tgt
      SetupcfgMerge.pat_entry_points none = some d₄)
    {s : String} (hs : SetupcfgMerge.pat_extras_require s = true) :
    (hasSection d₄ s = true ↔ hasSection tmpl s = true) := by
  obtain ⟨hfb, hmy, hdf, hep⟩ := pat_extras_require_disjoint hs
  have step : ∀ {a b : Doc} (pat : String → Bool),
      SetupcfgMerge.maybe_preserve_sections a tgt pat none = some b →
      pat s = false → (hasSection b s = true ↔ hasSection a s = true) := by
    intro a b pat hab hpat
    rw [SetupcfgMerge.mps_hasSection tgt a pat none b hab s]
    constructor
    · rintro (h | ⟨e, he, hes, hpe⟩)
      · exact h
      · rw [hes, hpat] at hpe
        cases hpe
    · exact Or.inl
  rw [step SetupcfgMerge.pat_entry_points h₄ hep,
    step SetupcfgMerge.pat_data_files h₃ hdf,
    step SetupcfgMerge.pat_mypy h₂ hmy,
    step SetupcfgMerge.pat_freebsd h₁ hfb]

/-! ## Claim theorems -/

/-- C1: `SetupcfgMerge`'s dependency-list merge starts from the target's full
specifier list, appends every template specifier whose normalized name (lowercased
leading package identifier) is not already the normalized name of some target
specifier, sorts the combined list case-insensitively by the full specifier text
(`key=str.casefold`), and writes it back as the key's value; when the same
normalized name occurs in both inputs, every target specifier appears in the output
and a template specifier that is not itself one of the target's specifiers does
not. -/
theorem claim_C1 (template_requirements target_requirements : List String) :
    SetupcfgMerge.merge_requirements_list template_requirements target_requirements
      = List.insertionSort reqR
          (target_requirements ++ template_requirements.filter (fun r =>
            !(target_requirements.map normalize_requirement).contains
              (normalize_requirement r)))
    ∧ List.Sorted reqR (SetupcfgMerge.merge_requirements_list template_requirements
        target_requirements)
    ∧ (∀ t ∈ target_requirements,
        t ∈ SetupcfgMerge.merge_requirements_list template_requirements
          target_requirements)
    ∧ (∀ r ∈ template_requirements,
        normalize_requirement r ∈ target_requirements.map normalize_requirement →
        r ∉ target_requirements →
        r ∉ SetupcfgMerge.merge_requirements_list template_requirements
          target_requirements)
    ∧ (∀ (template_doc : Doc) (target_doc : Option Doc) (sec key : String),
        getKey (SetupcfgMerge.merge_requirements template_doc target_doc sec
          key) sec key
          = some (dump_setupcfg_requirements
              (SetupcfgMerge.merge_requirements_list
                (SetupcfgMerge.parse_requirements_at template_doc sec key)
                (match target_doc with
                 | some t => SetupcfgMerge.parse_requirements_at t sec key
                 | none => [])))) := by
  refine ⟨merge_requirements_list_eq _ _, merge_requirements_list_sorted _ _,
    fun t ht => mem_merge_requirements_list_iff.mpr (Or.inl ht),
    fun r _ hn hnt hmem => ?_,
    fun template_doc target_doc sec key =>
      getKey_merge_requirements_self template_doc target_doc sec key⟩
  rcases mem_merge_requirements_list_iff.mp hmem with h | ⟨-, hn'⟩
  · exact hnt h
  · exact hn' hn

/-- C1 witness: the claim theorem applied at the spec §8 example inputs. -/
theorem claim_C1_witness :
    SetupcfgMerge.merge_requirements_list ["foo>=1.0", "bar==2.0"] ["foo==1.5"]
      = List.insertionSort reqR
          (["foo==1.5"] ++ ["foo>=1.0", "bar==2.0"].filter (fun r =>
            !(["foo==1.5"].map normalize_requirement).contains
              (normalize_requirement r)))
    ∧ List.Sorted reqR (SetupcfgMerge.merge_requirements_list
        ["foo>=1.0", "bar==2.0"] ["foo==1.5"])
    ∧ (∀ t ∈ ["foo==1.5"],
        t ∈ SetupcfgMerge.merge_requirements_list ["foo>=1.0", "bar==2.0"]
          ["foo==1.5"])
    ∧ (∀ r ∈ ["foo>=1.0", "bar==2.0"],
        normalize_requirement r ∈ ["foo==1.5"].map normalize_requirement →
        r ∉ ["foo==1.5"] →
        r ∉ SetupcfgMerge.merge_requirements_list ["foo>=1.0", "bar==2.0"]
          ["foo==1.5"])
    ∧ (∀ (template_doc : Doc) (target_doc : Option Doc) (sec key : String),
        getKey (SetupcfgMerge.merge_requirements template_doc target_doc sec
          key) sec key
          = some (dump_setupcfg_requirements
              (SetupcfgMerge.merge_requirements_list
                (SetupcfgMerge.parse_requirements_at template_doc sec key)
                (match target_doc with
                 | some t => SetupcfgMerge.parse_requirements_at t sec key
                 | none => [])))) :=
  claim_C1 ["foo>=1.0", "bar==2.0"] ["foo==1.5"]

/-- C9: duplicate detection in the requirement merge only consults the target's
normalized names, never the names of template specifiers already appended: two
template specifiers with the same normalized name (`foo`) both survive when the
target lacks that name. -/
theorem claim_C9 :
    (∀ (template_requirements target_requirements : List String),
      SetupcfgMerge.merge_requirements_list template_requirements
          target_requirements
        = List.insertionSort reqR
            (target_requirements ++ template_requirements.filter (fun r =>
              !(target_requirements.map normalize_requirement).contains
                (normalize_requirement r))))
    ∧ SetupcfgMerge.merge_requirements_list ["foo>=1.0", "FOO==2.0"] ["bar==1.0"]
        = ["bar==1.0", "FOO==2.0", "foo>=1.0"]
    ∧ normalize_requirement "foo>=1.0" = normalize_requirement "FOO==2.0"
    ∧ "foo>=1.0" ∈ SetupcfgMerge.merge_requirements_list ["foo>=1.0", "FOO==2.0"]
        ["bar==1.0"]
    ∧ "FOO==2.0" ∈ SetupcfgMerge.merge_requirements_list ["foo>=1.0", "FOO==2.0"]
        ["bar==1.0"] :=
  ⟨fun tl gl => merge_requirements_list_eq tl gl, by rfl, by rfl,
    by rw [show SetupcfgMerge.merge_requirements_list ["foo>=1.0", "FOO==2.0"]
        ["bar==1.0"] = ["bar==1.0", "FOO==2.0", "foo>=1.0"] from rfl]; simp,
    by rw [show SetupcfgMerge.merge_requirements_list ["foo>=1.0", "FOO==2.0"]
        ["bar==1.0"] = ["bar==1.0", "FOO==2.0", "foo>=1.0"] from rfl]; simp⟩

/-- C5 (amended): the output lines of `SortedUniqueLines.apply` contain no
duplicates, no empty lines and no embedded newlines, and are sorted by the
case-insensitive key `(s.casefold(), s)`; whenever at least one nonempty line
exists the output is those lines joined by newlines followed by exactly one
trailing newline (the joined body itself does not end in a newline), and when no
nonempty line exists the output is the empty string, which ends in no newline. -/
theorem claim_C5_amended (template_text : String) (target_text : Option String) :
    (SortedUniqueLines.out_lines template_text target_text).Nodup
    ∧ (∀ l ∈ SortedUniqueLines.out_lines template_text target_text, l ≠ "")
    ∧ List.Sorted lineR (SortedUniqueLines.out_lines template_text target_text)
    ∧ (∀ l ∈ SortedUniqueLines.out_lines template_text target_text, '\n' ∉ l.data)
    ∧ (SortedUniqueLines.out_lines template_text target_text ≠ [] →
        SortedUniqueLines.apply template_text target_text
          = joinWithNewlines (SortedUniqueLines.out_lines template_text target_text)
            ++ "\n"
        ∧ (joinWithNewlines (SortedUniqueLines.out_lines template_text
            target_text)).data.getLast? ≠ some '\n')
    ∧ (SortedUniqueLines.out_lines template_text target_text = [] →
        SortedUniqueLines.apply template_text target_text = "") := by
  refine ⟨SortedUniqueLines.out_lines_nodup template_text target_text,
    SortedUniqueLines.out_lines_ne_empty template_text target_text,
    SortedUniqueLines.out_lines_sorted template_text target_text,
    SortedUniqueLines.mem_out_lines_no_newline template_text target_text,
    fun hne => ⟨?_, ?_⟩, fun he => ?_⟩
  · unfold SortedUniqueLines.apply
    exact joinWithNewlines_append_empty _ hne
  · exact joinWithNewlines_getLast_ne_newline _ hne
      (fun l hl => ⟨SortedUniqueLines.out_lines_ne_empty template_text target_text
          l hl,
        SortedUniqueLines.mem_out_lines_no_newline template_text target_text l hl⟩)
  · unfold SortedUniqueLines.apply
    rw [he]
    rfl

/-- C5 witness: the claim theorem at a concrete input with duplicate, blank and
case-varying lines. -/
theorem claim_C5_witness :
    (SortedUniqueLines.out_lines "b\nA\n\na" (some "A\nc")).Nodup
    ∧ (∀ l ∈ SortedUniqueLines.out_lines "b\nA\n\na" (some "A\nc"), l ≠ "")
    ∧ List.Sorted lineR (SortedUniqueLines.out_lines "b\nA\n\na" (some "A\nc"))
    ∧ (∀ l ∈ SortedUniqueLines.out_lines "b\nA\n\na" (some "A\nc"), '\n' ∉ l.data)
    ∧ (SortedUniqueLines.out_lines "b\nA\n\na" (some "A\nc") ≠ [] →
        SortedUniqueLines.apply "b\nA\n\na" (some "A\nc")
          = joinWithNewlines (SortedUniqueLines.out_lines "b\nA\n\na" (some "A\nc"))
            ++ "\n"
        ∧ (joinWithNewlines (SortedUniqueLines.out_lines "b\nA\n\na"
            (some "A\nc"))).data.getLast? ≠ some '\n')
    ∧ (SortedUniqueLines.out_lines "b\nA\n\na" (some "A\nc") = [] →
        SortedUniqueLines.apply "b\nA\n\na" (some "A\nc") = "") :=
  claim_C5_amended "b\nA\n\na" (some "A\nc")

/-- C5 counterexample: on an empty template with no target, the output is the empty
string, which does not end with a trailing newline, contradicting the claim that
the output always ends with exactly one trailing newline. -/
theorem claim_C5_counterexample :
    SortedUniqueLines.apply "" none = ""
    ∧ ("" : String).data = ([] : List Char) :=
  ⟨rfl, rfl⟩

theorem SortedUniqueLines.out_lines_congr {t₁ t₂ : String}
    {g₁ g₂ : Option String}
    (h : ∀ x, x ∈ splitlines t₁ ++ SortedUniqueLines.target_lines g₁ ↔
      x ∈ splitlines t₂ ++ SortedUniqueLines.target_lines g₂) :
    SortedUniqueLines.out_lines t₁ g₁ = SortedUniqueLines.out_lines t₂ g₂ := by
  show (List.insertionSort lineR
      (splitlines t₁ ++ SortedUniqueLines.target_lines g₁).dedup).filter
        (fun line => line ≠ "")
    = (List.insertionSort lineR
      (splitlines t₂ ++ SortedUniqueLines.target_lines g₂).dedup).filter
        (fun line => line ≠ "")
  rw [insertionSort_dedup_ext h]

/-- C6: `SortedUniqueLines` is commutative (swapping which lines come from the
template and the target yields the same output) and idempotent (re-running on its
own output, supplied as the target, with an unchanged template reproduces that
output). -/
theorem claim_C6 (a b t : String) :
    SortedUniqueLines.apply a (some b) = SortedUniqueLines.apply b (some a)
    ∧ SortedUniqueLines.apply t (some (SortedUniqueLines.apply t none))
        = SortedUniqueLines.apply t none := by
  constructor
  · show joinWithNewlines (SortedUniqueLines.out_lines a (some b) ++ [""])
      = joinWithNewlines (SortedUniqueLines.out_lines b (some a) ++ [""])
    rw [@SortedUniqueLines.out_lines_congr a b (some b) (some a)
      (fun x => by
        simp only [SortedUniqueLines.target_lines, List.mem_append]
        exact Or.comm)]
  · have hout : SortedUniqueLines.out_lines t
        (some (SortedUniqueLines.apply t none))
        = SortedUniqueLines.out_lines t none := by
      by_cases he : SortedUniqueLines.out_lines t none = []
      · have hO : SortedUniqueLines.apply t none = "" := by
          show joinWithNewlines (SortedUniqueLines.out_lines t none ++ [""]) = ""
          rw [he]
          rfl
        rw [hO]
        apply SortedUniqueLines.out_lines_congr
        intro x
        simp only [SortedUniqueLines.target_lines, List.mem_append]
        constructor
        · rintro (hx | hx)
          · exact Or.inl hx
          · exact absurd hx (by simp [splitlines, splitlinesChars])
        · rintro (hx | hx)
          · exact Or.inl hx
          · exact absurd hx (List.not_mem_nil x)
      · have hprops : ∀ l ∈ SortedUniqueLines.out_lines t none,
            l ≠ "" ∧ '\n' ∉ l.data :=
          fun l hl => ⟨SortedUniqueLines.out_lines_ne_empty t none l hl,
            SortedUniqueLines.mem_out_lines_no_newline t none l hl⟩
        have hsplit : splitlines (SortedUniqueLines.apply t none)
            = SortedUniqueLines.out_lines t none := by
          show splitlines
            (joinWithNewlines (SortedUniqueLines.out_lines t none ++ [""]))
            = SortedUniqueLines.out_lines t none
          exact splitlines_joinWithNewlines _ hprops
        apply SortedUniqueLines.out_lines_congr
        intro x
        simp only [SortedUniqueLines.target_lines, List.mem_append, hsplit]
        constructor
        · rintro (hx | hx)
          · exact Or.inl hx
          · have := SortedUniqueLines.mem_out_lines_of_splitlines hx
            rcases List.mem_append.mp this with hx' | hx'
            · exact Or.inl hx'
            · exact absurd hx' (List.not_mem_nil x)
        · rintro (hx | hx)
          · exact Or.inl hx
          · exact absurd hx (List.not_mem_nil x)
    show joinWithNewlines (SortedUniqueLines.out_lines t
        (some (SortedUniqueLines.apply t none)) ++ [""])
      = joinWithNewlines (SortedUniqueLines.out_lines t none ++ [""])
    rw [hout]

/-- C4: if the target is present, its text contains the exact clean-variant comment
block and the template metadata is not dirty, `TemplateHash.apply` returns the
target content unchanged (the stream's read position is outside this model); if
the metadata is dirty the result is always the template content with a freshly
appended dirty-variant comment block, whatever the target holds. -/
theorem claim_C4 (line_comment_start : String) (meta : TemplateMeta)
    (target_text template_text : String) :
    (meta.is_git_dirty = false →
      strContains target_text (TemplateHash.comment line_comment_start meta) = true →
      TemplateHash.apply line_comment_start meta (some target_text) template_text
        = target_text)
    ∧ (meta.is_git_dirty = true →
      ∀ target_contents : Option String,
        TemplateHash.apply line_comment_start meta target_contents template_text
          = template_text ++ "\n"
            ++ TemplateHash.comment line_comment_start meta) := by
  have hsome : ∀ (c t tmpl : String),
      TemplateHash.apply_with_comment meta c (some t) tmpl
        = if (strContains t c && !meta.is_git_dirty) = true then t
          else tmpl ++ "\n" ++ c := fun c t tmpl => rfl
  have hnone : ∀ (c tmpl : String),
      TemplateHash.apply_with_comment meta c none tmpl = tmpl ++ "\n" ++ c :=
    fun c tmpl => rfl
  constructor
  · intro hd hc
    unfold TemplateHash.apply
    rw [hsome, if_pos (by rw [hc, hd]; rfl)]
  · intro hd target_contents
    unfold TemplateHash.apply
    rcases target_contents with - | t
    · rw [hnone]
    · rw [hsome, if_neg (by rw [hd]; simp)]

/-- C4 witness: a clean metadata with a target that is exactly the clean comment
block, and a dirty metadata with an arbitrary target. -/
theorem claim_C4_witness :
    ((⟨"u", false⟩ : TemplateMeta).is_git_dirty = false →
      strContains (TemplateHash.comment "#" ⟨"u", false⟩)
        (TemplateHash.comment "#" ⟨"u", false⟩) = true →
      TemplateHash.apply "#" ⟨"u", false⟩
        (some (TemplateHash.comment "#" ⟨"u", false⟩)) "T"
        = TemplateHash.comment "#" ⟨"u", false⟩)
    ∧ ((⟨"u", false⟩ : TemplateMeta).is_git_dirty = false
        ∧ strContains (TemplateHash.comment "#" ⟨"u", false⟩)
          (TemplateHash.comment "#" ⟨"u", false⟩) = true
        ∧ TemplateHash.apply "#" ⟨"u", false⟩
            (some (TemplateHash.comment "#" ⟨"u", false⟩)) "T"
          = TemplateHash.comment "#" ⟨"u", false⟩)
    ∧ TemplateHash.apply "#" ⟨"u", true⟩ (some "y") "T"
        = "T" ++ "\n" ++ TemplateHash.comment "#" ⟨"u", true⟩ :=
  ⟨(claim_C4 "#" ⟨"u", false⟩ (TemplateHash.comment "#" ⟨"u", false⟩) "T").1,
   ⟨rfl, rfl,
    (claim_C4 "#" ⟨"u", false⟩ (TemplateHash.comment "#" ⟨"u", false⟩) "T").1
      rfl rfl⟩,
   (claim_C4 "#" ⟨"u", true⟩ "y" "T").2 rfl (some "y")⟩

theorem PythonTemplateHash.comment_eq (meta : TemplateMeta)
    (hurl : '\n' ∉ meta.commit_url.data) :
    PythonTemplateHash.comment meta
      = "# Generated by https://github.com/rambler-digital-solutions/scaraplate"
          ++ "\n"
        ++ PythonTemplateHash.maybe_add_noqa
            ("# " ++ ((if meta.is_git_dirty = true then "From (dirty) "
              else "From ") ++ meta.commit_url))
        ++ "\n" := by
  rcases meta with ⟨url, dirty⟩
  have hl1 : '\n' ∉
      ("# Generated by https://github.com/rambler-digital-solutions/scaraplate"
        : String).data := by decide
  have hl2 : '\n' ∉ ("# " ++ ((if (dirty : Bool) = true then "From (dirty) "
      else "From ") ++ url)).data := by
    rw [String.data_append, String.data_append]
    intro hm
    rcases List.mem_append.mp hm with hm | hm
    · revert hm
      decide
    · rcases List.mem_append.mp hm with hm | hm
      · rcases dirty with - | - <;> revert hm <;> decide
      · exact hurl hm
  have hdata : (TemplateHash.comment "#" ⟨url, dirty⟩).data
      = ("# Generated by https://github.com/rambler-digital-solutions/scaraplate"
          : String).data
        ++ '\n' :: (("# " ++ ((if (dirty : Bool) = true then "From (dirty) "
            else "From ") ++ url)).data ++ '\n' :: []) := by
    rcases dirty with - | -
    · rw [show TemplateHash.comment "#" ⟨url, false⟩
          = ("" ++ ("#" ++ " "
              ++ "Generated by https://github.com/rambler-digital-solutions/scaraplate"
              ++ "\n"))
            ++ ("#" ++ " " ++ ("From " ++ url) ++ "\n") from rfl]
      simp only [String.data_append, if_neg (Bool.false_ne_true),
        show ("" : String).data = [] from rfl, List.nil_append, List.append_assoc]
      rfl
    · rw [show TemplateHash.comment "#" ⟨url, true⟩
          = ("" ++ ("#" ++ " "
              ++ "Generated by https://github.com/rambler-digital-solutions/scaraplate"
              ++ "\n"))
            ++ ("#" ++ " " ++ ("From (dirty) " ++ url) ++ "\n") from rfl]
      simp only [String.data_append, if_pos rfl,
        show ("" : String).data = [] from rfl, List.nil_append, List.append_assoc]
      rfl
  have hsplit : splitNl (TemplateHash.comment "#" ⟨url, dirty⟩)
      = ["# Generated by https://github.com/rambler-digital-solutions/scaraplate",
         "# " ++ ((if (dirty : Bool) = true then "From (dirty) " else "From ")
           ++ url), ""] := by
    unfold splitNl
    rw [hdata, splitNlChars_append_line _ _ hl1, splitNlChars_append_line _ _ hl2]
    rfl
  show joinWithNewlines ((splitNl (TemplateHash.comment "#" ⟨url, dirty⟩)).map
      PythonTemplateHash.maybe_add_noqa) = _
  rw [hsplit]
  rw [show (["# Generated by https://github.com/rambler-digital-solutions/scaraplate",
      "# " ++ ((if (dirty : Bool) = true then "From (dirty) " else "From ") ++ url),
      ""].map PythonTemplateHash.maybe_add_noqa)
    = ["# Generated by https://github.com/rambler-digital-solutions/scaraplate",
       PythonTemplateHash.maybe_add_noqa ("# " ++ ((if (dirty : Bool) = true
         then "From (dirty) " else "From ") ++ url)), ""] from by
    rw [List.map_cons, List.map_cons, List.map_cons, List.map_nil]
    rfl]
  apply str_ext
  simp [joinWithNewlines, String.data_append]

/-- C8: whenever the resync-skip condition does not hold, `apply` returns the
template content with the provenance comment appended after a blank-line
separator; the comment block is exactly line 1 `<token> Generated by
https://github.com/rambler-digital-solutions/scaraplate` and line 2 `<token> From
{commitURL}` (clean) or `<token> From (dirty) {commitURL}` (dirty); the Groovy
variant only sets the token to `//`; in the Python variant (token `#`) a line
gains a trailing `  # noqa` exactly when its length reaches the 87-character
threshold. -/
theorem claim_C8 (tok : String) (meta : TemplateMeta)
    (target_contents : Option String) (template_text : String)
    (hskip : ∀ t, target_contents = some t →
      strContains t (TemplateHash.comment tok meta) = false ∨
        meta.is_git_dirty = true)
    (hurl : '\n' ∉ meta.commit_url.data) :
    TemplateHash.apply tok meta target_contents template_text
      = template_text ++ "\n" ++ TemplateHash.comment tok meta
    ∧ TemplateHash.comment tok meta
      = tok ++ " "
        ++ "Generated by https://github.com/rambler-digital-solutions/scaraplate"
        ++ "\n"
        ++ (tok ++ " " ++ ((if meta.is_git_dirty = true then "From (dirty) "
            else "From ") ++ meta.commit_url) ++ "\n")
    ∧ (∀ (tc : Option String) (tt : String),
        GroovyTemplateHash.apply meta tc tt = TemplateHash.apply "//" meta tc tt)
    ∧ PythonTemplateHash.comment meta
      = "# Generated by https://github.com/rambler-digital-solutions/scaraplate"
          ++ "\n"
        ++ PythonTemplateHash.maybe_add_noqa
            ("# " ++ ((if meta.is_git_dirty = true then "From (dirty) "
              else "From ") ++ meta.commit_url))
        ++ "\n"
    ∧ (∀ line : String, 87 ≤ line.length →
        PythonTemplateHash.maybe_add_noqa line = line ++ "  # noqa")
    ∧ (∀ line : String, line.length < 87 →
        PythonTemplateHash.maybe_add_noqa line = line) := by
  refine ⟨?_, ?_, fun tc tt => rfl, PythonTemplateHash.comment_eq meta hurl,
    fun line hl => ?_, fun line hl => ?_⟩
  · have hsome : ∀ (c t tmpl : String),
        TemplateHash.apply_with_comment meta c (some t) tmpl
          = if (strContains t c && !meta.is_git_dirty) = true then t
            else tmpl ++ "\n" ++ c := fun c t tmpl => rfl
    unfold TemplateHash.apply
    rcases target_contents with - | t
    · rfl
    · rw [hsome, if_neg]
      rcases hskip t rfl with h | h
      · rw [h]
        simp
      · rw [h]
        simp
  · rcases meta with ⟨url, dirty⟩
    rcases dirty with - | -
    · apply str_ext
      simp [TemplateHash.comment, String.join, String.data_append,
        show ("" : String).data = [] from rfl]
    · apply str_ext
      simp [TemplateHash.comment, String.join, String.data_append,
        show ("" : String).data = [] from rfl]
  · unfold PythonTemplateHash.maybe_add_noqa
    rw [if_pos]
    exact hl
  · unfold PythonTemplateHash.maybe_add_noqa
    rw [if_neg]
    exact Nat.not_le_of_lt hl

/-- C8 witness: the claim theorem at token `//`, clean metadata with commit URL
`u`, an absent target and template `T`, with both hypotheses discharged. -/
theorem claim_C8_witness :
    TemplateHash.apply "//" ⟨"u", false⟩ none "T"
      = "T" ++ "\n" ++ TemplateHash.comment "//" ⟨"u", false⟩
    ∧ TemplateHash.comment "//" ⟨"u", false⟩
      = "//" ++ " "
        ++ "Generated by https://github.com/rambler-digital-solutions/scaraplate"
        ++ "\n"
        ++ ("//" ++ " "
          ++ ((if (⟨"u", false⟩ : TemplateMeta).is_git_dirty = true
              then "From (dirty) " else "From ")
            ++ (⟨"u", false⟩ : TemplateMeta).commit_url) ++ "\n")
    ∧ (∀ (tc : Option String) (tt : String),
        GroovyTemplateHash.apply ⟨"u", false⟩ tc tt
          = TemplateHash.apply "//" ⟨"u", false⟩ tc tt)
    ∧ PythonTemplateHash.comment ⟨"u", false⟩
      = "# Generated by https://github.com/rambler-digital-solutions/scaraplate"
          ++ "\n"
        ++ PythonTemplateHash.maybe_add_noqa
            ("# " ++ ((if (⟨"u", false⟩ : TemplateMeta).is_git_dirty = true
              then "From (dirty) " else "From ")
              ++ (⟨"u", false⟩ : TemplateMeta).commit_url))
        ++ "\n"
    ∧ (∀ line : String, 87 ≤ line.length →
        PythonTemplateHash.maybe_add_noqa line = line ++ "  # noqa")
    ∧ (∀ line : String, line.length < 87 →
        PythonTemplateHash.maybe_add_noqa line = line) :=
  claim_C8 "//" ⟨"u", false⟩ none "T" (fun t ht => nomatch ht) (by decide)

/-- C7: `PylintrcMerge` overwrites exactly the `ignored-modules` and
`ignored-classes` keys of the `[TYPECHECK]` section with the target's values when
the target has them (creating the section if absent), keeps the template's values
when the target lacks them, and leaves every other section and key of the result
exactly as in the template document; with no target the result is the template
unchanged (canonically serialized). -/
theorem claim_C7 (template_doc target_doc : Doc)
    (hwt : DocWF template_doc) :
    (∀ k, k = "ignored-modules" ∨ k = "ignored-classes" →
      getKey (PylintrcMerge.apply template_doc (some target_doc))
          "TYPECHECK" k
        = match getKey target_doc "TYPECHECK" k with
          | some v => some v
          | none => getKey template_doc "TYPECHECK" k)
    ∧ (∀ s k, ¬(s = "TYPECHECK" ∧
        (k = "ignored-modules" ∨ k = "ignored-classes")) →
      getKey (PylintrcMerge.apply template_doc (some target_doc)) s k
        = getKey template_doc s k)
    ∧ (∀ s k, getKey (PylintrcMerge.apply template_doc none) s k
        = getKey template_doc s k) := by
  have hw₁ : DocWF (maybe_preserve_key template_doc target_doc "TYPECHECK"
      "ignored-modules") :=
    maybe_preserve_key_WF target_doc "TYPECHECK" "ignored-modules" hwt
  have hw₂ : DocWF (maybe_preserve_key
      (maybe_preserve_key template_doc target_doc "TYPECHECK"
        "ignored-modules")
      target_doc "TYPECHECK" "ignored-classes") :=
    maybe_preserve_key_WF target_doc "TYPECHECK" "ignored-classes" hw₁
  have happly : ∀ s k,
      getKey (PylintrcMerge.apply template_doc (some target_doc)) s k
        = getKey (maybe_preserve_key
            (maybe_preserve_key template_doc target_doc "TYPECHECK"
              "ignored-modules")
            target_doc "TYPECHECK" "ignored-classes") s k := by
    intro s k
    show getKey (parser_to_pretty_output _) s k = _
    exact getKey_pretty hw₂ s k
  refine ⟨fun k hk => ?_, fun s k hk => ?_, fun s k => ?_⟩
  · rcases hk with hk | hk
    · subst hk
      rw [happly,
        getKey_maybe_preserve_key_frame _ target_doc "TYPECHECK"
          "ignored-classes" "TYPECHECK" "ignored-modules"
          (fun h => absurd h.2 (by decide)),
        getKey_maybe_preserve_key_self]
    · subst hk
      rw [happly, getKey_maybe_preserve_key_self]
      rcases getKey target_doc "TYPECHECK" "ignored-classes" with - | v
      · simp only []
        rw [getKey_maybe_preserve_key_frame _ target_doc "TYPECHECK"
          "ignored-modules" "TYPECHECK" "ignored-classes"
          (fun h => absurd h.2 (by decide))]
      · rfl
  · rw [happly,
      getKey_maybe_preserve_key_frame _ target_doc "TYPECHECK"
        "ignored-classes" s k (fun h => hk ⟨h.1, Or.inr h.2⟩),
      getKey_maybe_preserve_key_frame _ target_doc "TYPECHECK"
        "ignored-modules" s k (fun h => hk ⟨h.1, Or.inl h.2⟩)]
  · show getKey (parser_to_pretty_output template_doc) s k = _
    exact getKey_pretty hwt s k

/-- C7 witness: the claim theorem at the spec §8 example documents, with the
well-formedness hypothesis discharged by computation. -/
theorem claim_C7_witness :
    (∀ k, k = "ignored-modules" ∨ k = "ignored-classes" →
      getKey (PylintrcMerge.apply [("TYPECHECK", [("ignored-modules", "a,b")])]
          (some [("TYPECHECK", [("ignored-modules", "c,d")])])) "TYPECHECK" k
        = match getKey [("TYPECHECK", [("ignored-modules", "c,d")])] "TYPECHECK" k
            with
          | some v => some v
          | none => getKey [("TYPECHECK", [("ignored-modules", "a,b")])]
              "TYPECHECK" k)
    ∧ (∀ s k, ¬(s = "TYPECHECK" ∧
        (k = "ignored-modules" ∨ k = "ignored-classes")) →
      getKey (PylintrcMerge.apply [("TYPECHECK", [("ignored-modules", "a,b")])]
          (some [("TYPECHECK", [("ignored-modules", "c,d")])])) s k
        = getKey [("TYPECHECK", [("ignored-modules", "a,b")])] s k)
    ∧ (∀ s k, getKey (PylintrcMerge.apply
          [("TYPECHECK", [("ignored-modules", "a,b")])] none) s k
        = getKey [("TYPECHECK", [("ignored-modules", "a,b")])] s k) :=
  claim_C7 [("TYPECHECK", [("ignored-modules", "a,b")])]
    [("TYPECHECK", [("ignored-modules", "c,d")])] (by decide)

/-- C3 (amended): every strategy policy is total except one branch of
`SetupcfgMerge`: `SetupcfgMerge.apply` succeeds exactly when no target section
whose name matches the `^options.extras_require$` pattern is missing from the
template document; on such an input the unguarded `template_doc[section]`
access in `_maybe_preserve_sections` raises a `KeyError` (not a parse error),
embedded here as `none`. -/
theorem claim_C3_amended (template_doc : Doc) (target : Option Doc) :
    (SetupcfgMerge.apply template_doc target).isSome = true ↔
      ∀ t, target = some t → ∀ e ∈ t,
        SetupcfgMerge.pat_extras_require e.1 = true →
        hasSection template_doc e.1 = true := by
  rcases target with - | t
  · rw [SetupcfgMerge.apply_none_unfold]
    simp
  · rw [SetupcfgMerge.apply_some_unfold]
    rcases SetupcfgMerge.mps_none_isSome t template_doc
      SetupcfgMerge.pat_freebsd with ⟨d₁, h₁⟩
    rcases SetupcfgMerge.mps_none_isSome t d₁ SetupcfgMerge.pat_mypy with ⟨d₂, h₂⟩
    rcases SetupcfgMerge.mps_none_isSome t d₂ SetupcfgMerge.pat_data_files
      with ⟨d₃, h₃⟩
    rcases SetupcfgMerge.mps_none_isSome t d₃ SetupcfgMerge.pat_entry_points
      with ⟨d₄, h₄⟩
    rw [h₁, Option.some_bind, h₂, Option.some_bind, h₃, Option.some_bind, h₄,
      Option.some_bind]
    have hchain : ((SetupcfgMerge.maybe_preserve_sections d₄ t
        SetupcfgMerge.pat_extras_require (some SetupcfgMerge.pat_develop)).bind
          (fun d₅ => some (parser_to_pretty_output
            (SetupcfgMerge.merge_requirements
              (SetupcfgMerge.merge_requirements
                (maybe_preserve_key (maybe_preserve_key d₅ t "tool:pytest"
                  "testpaths") t "build" "executable")
                (some t) "options.extras_require" "develop")
              (some t) "options" "install_requires")))).isSome = true
        ↔ ∃ d₅, SetupcfgMerge.maybe_preserve_sections d₄ t
            SetupcfgMerge.pat_extras_require (some SetupcfgMerge.pat_develop)
            = some d₅ := by
      rcases h₅ : SetupcfgMerge.maybe_preserve_sections d₄ t
          SetupcfgMerge.pat_extras_require (some SetupcfgMerge.pat_develop)
          with - | d₅
      · simp
      · simp
    rw [hchain,
      SetupcfgMerge.mps_some_isSome_iff t d₄ SetupcfgMerge.pat_extras_require
        SetupcfgMerge.pat_develop]
    constructor
    · intro hall t' ht' e he hpe
      rcases Option.some_inj.mp ht'
      exact (hasSection_through_presteps h₁ h₂ h₃ h₄ hpe).mp (hall e he hpe)
    · intro hall e he hpe
      exact (hasSection_through_presteps h₁ h₂ h₃ h₄ hpe).mpr
        (hall t rfl e he hpe)

/-- C3 counterexample: on the well-formed pair where the target has an
`[options.extras_require]` section and the template lacks it, `SetupcfgMerge.apply`
fails (`none` embeds the `KeyError`), so the claim that every strategy succeeds on
all well-formed INI inputs is false. -/
theorem claim_C3_counterexample :
    SetupcfgMerge.apply [] (some [("options.extras_require", [])]) = none
    ∧ DocWF ([] : Doc)
    ∧ DocWF [("options.extras_require", ([] : IniSection))] :=
  ⟨rfl, by decide, by decide⟩

theorem c10_core (X : Doc) (tgtp : Option Doc) (hw : DocWF X) :
    (∃ tl gl, getKey (parser_to_pretty_output
        (SetupcfgMerge.merge_requirements
          (SetupcfgMerge.merge_requirements X tgtp "options.extras_require"
            "develop")
          tgtp "options" "install_requires")) "options" "install_requires"
      = some (dump_setupcfg_requirements
          (SetupcfgMerge.merge_requirements_list tl gl)))
    ∧ (∃ tl gl, getKey (parser_to_pretty_output
        (SetupcfgMerge.merge_requirements
          (SetupcfgMerge.merge_requirements X tgtp "options.extras_require"
            "develop")
          tgtp "options" "install_requires")) "options.extras_require" "develop"
      = some (dump_setupcfg_requirements
          (SetupcfgMerge.merge_requirements_list tl gl))) := by
  have hw9 : DocWF (SetupcfgMerge.merge_requirements
      (SetupcfgMerge.merge_requirements X tgtp "options.extras_require" "develop")
      tgtp "options" "install_requires") :=
    merge_requirements_WF tgtp "options" "install_requires"
      (merge_requirements_WF tgtp "options.extras_require" "develop" hw)
  have hne : ¬(("options.extras_require" : String) = "options"
      ∧ ("develop" : String) = "install_requires") := fun hc =>
    absurd hc.1 (by decide)
  rcases tgtp with - | t
  · constructor
    · exact ⟨_, _, by rw [getKey_pretty hw9, getKey_merge_requirements_self]⟩
    · refine ⟨SetupcfgMerge.parse_requirements_at X "options.extras_require"
        "develop", [], ?_⟩
      rw [getKey_pretty hw9,
        getKey_merge_requirements_frame _ none "options" "install_requires"
          "options.extras_require" "develop" hne,
        getKey_merge_requirements_self]
  · constructor
    · exact ⟨_, _, by rw [getKey_pretty hw9, getKey_merge_requirements_self]⟩
    · refine ⟨SetupcfgMerge.parse_requirements_at X "options.extras_require"
        "develop",
        SetupcfgMerge.parse_requirements_at t "options.extras_require" "develop",
        ?_⟩
      rw [getKey_pretty hw9,
        getKey_merge_requirements_frame _ (some t) "options" "install_requires"
          "options.extras_require" "develop" hne,
        getKey_merge_requirements_self]

/-- C10: every successful `SetupcfgMerge.apply` output contains an `options`
section with an `install_requires` key and an `options.extras_require` section
with a `develop` key, each holding a dumped case-insensitively sorted merged
requirement list (possibly empty); the dependency merge runs unconditionally, so
when the template lacks the key the output is never the template document
verbatim.  Well-formedness of the parsed inputs is the parser's invariant
(spec §3). -/
theorem claim_C10 (template_doc : Doc) (target : Option Doc) (out : Doc)
    (hwt : DocWF template_doc)
    (hwg : ∀ t, target = some t → DocWF t)
    (h : SetupcfgMerge.apply template_doc target = some out) :
    (∃ tl gl, getKey out "options" "install_requires"
      = some (dump_setupcfg_requirements
          (SetupcfgMerge.merge_requirements_list tl gl)))
    ∧ (∃ tl gl, getKey out "options.extras_require" "develop"
      = some (dump_setupcfg_requirements
          (SetupcfgMerge.merge_requirements_list tl gl)))
    ∧ (getKey template_doc "options" "install_requires" = none →
        out ≠ template_doc) := by
  have hcore : (∃ tl gl, getKey out "options" "install_requires"
      = some (dump_setupcfg_requirements
          (SetupcfgMerge.merge_requirements_list tl gl)))
      ∧ (∃ tl gl, getKey out "options.extras_require" "develop"
      = some (dump_setupcfg_requirements
          (SetupcfgMerge.merge_requirements_list tl gl))) := by
    rcases target with - | t
    · rw [SetupcfgMerge.apply_none_unfold] at h
      rcases Option.some_inj.mp h
      exact c10_core template_doc none hwt
    · rcases SetupcfgMerge.apply_some_inv template_doc t out h
        with ⟨d₁, d₂, d₃, d₄, d₅, h₁, h₂, h₃, h₄, h₅, hout⟩
      have hwtgt : DocWF t := hwg t rfl
      have hper : ∀ p ∈ t, (p.2.map Prod.fst).Nodup := hwtgt.2
      have hw₁ := SetupcfgMerge.mps_WF t template_doc _ none d₁ h₁ hwt hper
      have hw₂ := SetupcfgMerge.mps_WF t d₁ _ none d₂ h₂ hw₁ hper
      have hw₃ := SetupcfgMerge.mps_WF t d₂ _ none d₃ h₃ hw₂ hper
      have hw₄ := SetupcfgMerge.mps_WF t d₃ _ none d₄ h₄ hw₃ hper
      have hw₅ := SetupcfgMerge.mps_WF t d₄ _ _ d₅ h₅ hw₄ hper
      have hw₆ := maybe_preserve_key_WF t "tool:pytest" "testpaths" hw₅
      have hw₇ := maybe_preserve_key_WF t "build" "executable" hw₆
      rw [hout]
      exact c10_core _ (some t) hw₇
  refine ⟨hcore.1, hcore.2, fun hnone hout => ?_⟩
  rcases hcore.1 with ⟨tl, gl, hsome⟩
  rw [hout, hnone] at hsome
  cases hsome

/-- C10 witness: an empty template and no target; the two keys are created from
nothing and the output differs from the template. -/
theorem claim_C10_witness :
    (∃ tl gl, getKey [("options", [("install_requires", "")]),
        ("options.extras_require", [("develop", "")])] "options" "install_requires"
      = some (dump_setupcfg_requirements
          (SetupcfgMerge.merge_requirements_list tl gl)))
    ∧ (∃ tl gl, getKey [("options", [("install_requires", "")]),
        ("options.extras_require", [("develop", "")])] "options.extras_require"
          "develop"
      = some (dump_setupcfg_requirements
          (SetupcfgMerge.merge_requirements_list tl gl)))
    ∧ (getKey ([] : Doc) "options" "install_requires" = none →
        [("options", [("install_requires", "")]),
          ("options.extras_require", [("develop", "")])] ≠ ([] : Doc)) :=
  claim_C10 [] none
    [("options", [("install_requires", "")]),
      ("options.extras_require", [("develop", "")])]
    (by decide) (fun t ht => nomatch ht) (by rfl)

theorem pat_ne_of_false {pat : String → Bool} {s c : String} (h : pat s = true)
    (hc : pat c = false) : s ≠ c := by
  intro he
  rw [he, hc] at h
  cases h

theorem reDotExact_head_chars {p : Char} {ps cs : List Char} (hp : p ≠ '.')
    (h : reDotExact (p :: ps) cs = true) : ∃ t, cs = p :: t := by
  rcases cs with - | ⟨c, t⟩
  · rw [reDotExact_nil_right] at h
    cases h
  · rw [reDotExact_cons, Bool.and_eq_true] at h
    have hc := h.1
    rw [show reDotCharMatch p c = decide (p = c) from by
      unfold reDotCharMatch
      rw [if_neg hp]] at hc
    simp only [decide_eq_true_eq] at hc
    exact ⟨t, by rw [hc]⟩

/-- The four plain preservation patterns are pairwise disjoint and disjoint from
the extras-require pattern, and never match the section names touched by the
later single-key preservations and requirement merges. -/
theorem four_pat_facts {s : String}
    (h : (SetupcfgMerge.pat_freebsd s || SetupcfgMerge.pat_mypy s ||
      SetupcfgMerge.pat_data_files s || SetupcfgMerge.pat_entry_points s)
      = true) :
    s ≠ "tool:pytest" ∧ s ≠ "build" ∧ s ≠ "options"
      ∧ s ≠ "options.extras_require"
      ∧ SetupcfgMerge.pat_extras_require s = false := by
  have hex : SetupcfgMerge.pat_extras_require s = false := by
    rcases hpe : SetupcfgMerge.pat_extras_require s with - | -
    · rfl
    · obtain ⟨h1, h2, h3, h4⟩ := pat_extras_require_disjoint hpe
      rw [h1, h2, h3, h4] at h
      cases h
  have hne : ∀ c : String, SetupcfgMerge.pat_freebsd c = false →
      SetupcfgMerge.pat_mypy c = false → SetupcfgMerge.pat_data_files c = false →
      SetupcfgMerge.pat_entry_points c = false → s ≠ c := by
    intro c hc1 hc2 hc3 hc4 he
    subst he
    rw [hc1, hc2, hc3, hc4] at h
    cases h
  exact ⟨hne "tool:pytest" (by decide) (by decide) (by decide) (by decide),
    hne "build" (by decide) (by decide) (by decide) (by decide),
    hne "options" (by decide) (by decide) (by decide) (by decide),
    hne "options.extras_require" (by decide) (by decide) (by decide) (by decide),
    hex⟩

theorem pat_freebsd_eq {s : String} (h : SetupcfgMerge.pat_freebsd s = true) :
    s = "freebsd" := by
  unfold SetupcfgMerge.pat_freebsd at h
  exact beq_iff_eq.mp h

theorem pat_mypy_head {s : String} (h : SetupcfgMerge.pat_mypy s = true) :
    ∃ t, s.data = 'm' :: t := by
  unfold SetupcfgMerge.pat_mypy at h
  rcases hd : s.data with - | ⟨c, t⟩
  · rw [hd] at h
    cases h
  · rw [hd, show ("mypy-".data) = 'm' :: "ypy-".data from rfl,
      show List.isPrefixOf ('m' :: "ypy-".data) (c :: t)
        = (('m' == c) && List.isPrefixOf "ypy-".data t) from rfl,
      Bool.and_eq_true] at h
    have hc := beq_iff_eq.mp h.1
    exact ⟨t, congrArg (fun x => x :: t) hc.symm⟩

theorem pat_mypy_data_false {s : String} (h : SetupcfgMerge.pat_mypy s = true) :
    SetupcfgMerge.pat_data_files s = false := by
  rcases hd : SetupcfgMerge.pat_data_files s with - | -
  · rfl
  · obtain ⟨t, ht⟩ := pat_mypy_head h
    unfold SetupcfgMerge.pat_data_files at hd
    rw [show ("options.data_files".data) = 'o' :: "ptions.data_files".data
      from rfl] at hd
    obtain ⟨u, hu⟩ := reDotExact_head_chars (by decide) hd
    rw [ht] at hu
    cases hu

theorem pat_mypy_entry_false {s : String} (h : SetupcfgMerge.pat_mypy s = true) :
    SetupcfgMerge.pat_entry_points s = false := by
  rcases hd : SetupcfgMerge.pat_entry_points s with - | -
  · rfl
  · obtain ⟨t, ht⟩ := pat_mypy_head h
    unfold SetupcfgMerge.pat_entry_points at hd
    rw [show ("options.entry_points".data) = 'o' :: "ptions.entry_points".data
      from rfl] at hd
    obtain ⟨u, hu⟩ := reDotExact_head_chars (by decide) hd
    rw [ht] at hu
    cases hu

theorem pat_data_entry_false {s : String}
    (h : SetupcfgMerge.pat_data_files s = true) :
    SetupcfgMerge.pat_entry_points s = false := by
  rcases hd : SetupcfgMerge.pat_entry_points s with - | -
  · rfl
  · have h₁ := reDotExact_length _ _ h
    have h₂ := reDotExact_length _ _ hd
    rw [← h₁] at h₂
    cases h₂

theorem getKey_after_merge_steps (d₅ t : Doc) {s k : String}
    (h1 : ¬(s = "tool:pytest" ∧ k = "testpaths"))
    (h2 : ¬(s = "build" ∧ k = "executable"))
    (h3 : ¬(s = "options.extras_require" ∧ k = "develop"))
    (h4 : ¬(s = "options" ∧ k = "install_requires")) :
    getKey (SetupcfgMerge.merge_requirements
      (SetupcfgMerge.merge_requirements
        (maybe_preserve_key (maybe_preserve_key d₅ t "tool:pytest" "testpaths")
          t "build" "executable")
        (some t) "options.extras_require" "develop")
      (some t) "options" "install_requires") s k = getKey d₅ s k := by
  rw [getKey_merge_requirements_frame _ _ _ _ _ _ h4,
    getKey_merge_requirements_frame _ _ _ _ _ _ h3,
    getKey_maybe_preserve_key_frame _ _ _ _ _ _ h2,
    getKey_maybe_preserve_key_frame _ _ _ _ _ _ h1]

/-- C2 (amended): in `SetupcfgMerge`, a target section whose name matches one of
the preservation regexes — in which `.` matches any single non-newline character,
so e.g. `optionsXdata_files` also matches `^options.data_files$` — fully replaces
the template's same-named section.  For sections matching
`^options.extras_require$`, keys other than `develop` come from the target and the
template's `develop` value is restored at the preservation stage (visible in the
output for any matching section other than the literal `options.extras_require`,
whose `develop` key is then overwritten by the separate requirement merge).  A
template section not matching any preservation regex is untouched by target
content except for the single-key preservations `tool:pytest.testpaths` and
`build.executable` and the requirement-merge keys `options.install_requires` and
`options.extras_require.develop`. -/
theorem claim_C2_amended (template_doc target_doc out : Doc)
    (hwt : DocWF template_doc) (hwg : DocWF target_doc)
    (happly : SetupcfgMerge.apply template_doc (some target_doc)
      = some out) :
    (∀ e ∈ target_doc,
      (SetupcfgMerge.pat_freebsd e.1 || SetupcfgMerge.pat_mypy e.1 ||
        SetupcfgMerge.pat_data_files e.1 ||
        SetupcfgMerge.pat_entry_points e.1) = true →
      ∀ k, getKey out e.1 k = lookupKey e.2 k)
    ∧ (∀ e ∈ target_doc, SetupcfgMerge.pat_extras_require e.1 = true →
      ∀ k, SetupcfgMerge.pat_develop k = false →
        getKey out e.1 k = lookupKey e.2 k)
    ∧ (∀ e ∈ target_doc, SetupcfgMerge.pat_extras_require e.1 = true →
      e.1 ≠ "options.extras_require" →
      getKey out e.1 "develop"
        = match getKey template_doc e.1 "develop" with
          | some v => some v
          | none => lookupKey e.2 "develop")
    ∧ (∃ tl gl, getKey out "options.extras_require" "develop"
      = some (dump_setupcfg_requirements
          (SetupcfgMerge.merge_requirements_list tl gl)))
    ∧ (∀ s k, (∀ e ∈ target_doc, e.1 = s →
        (SetupcfgMerge.pat_freebsd s || SetupcfgMerge.pat_mypy s ||
         SetupcfgMerge.pat_data_files s || SetupcfgMerge.pat_entry_points s ||
         SetupcfgMerge.pat_extras_require s) = false) →
      ¬(s = "tool:pytest" ∧ k = "testpaths") →
      ¬(s = "build" ∧ k = "executable") →
      ¬(s = "options" ∧ k = "install_requires") →
      ¬(s = "options.extras_require" ∧ k = "develop") →
      getKey out s k = getKey template_doc s k) := by
  rcases SetupcfgMerge.apply_some_inv template_doc target_doc out happly
    with ⟨d₁, d₂, d₃, d₄, d₅, h₁, h₂, h₃, h₄, h₅, hout⟩
  have hper : ∀ p ∈ target_doc, (p.2.map Prod.fst).Nodup := hwg.2
  have hw₁ := SetupcfgMerge.mps_WF target_doc template_doc _ none d₁ h₁
    hwt hper
  have hw₂ := SetupcfgMerge.mps_WF target_doc d₁ _ none d₂ h₂ hw₁ hper
  have hw₃ := SetupcfgMerge.mps_WF target_doc d₂ _ none d₃ h₃ hw₂ hper
  have hw₄ := SetupcfgMerge.mps_WF target_doc d₃ _ none d₄ h₄ hw₃ hper
  have hw₅ := SetupcfgMerge.mps_WF target_doc d₄ _ _ d₅ h₅ hw₄ hper
  have hw₆ := maybe_preserve_key_WF target_doc "tool:pytest" "testpaths" hw₅
  have hw₇ := maybe_preserve_key_WF target_doc "build" "executable" hw₆
  have hw₈ := merge_requirements_WF (some target_doc)
    "options.extras_require" "develop" hw₇
  have hw₉ := merge_requirements_WF (some target_doc) "options"
    "install_requires" hw₈
  have hget : ∀ s k, getKey out s k
      = getKey (SetupcfgMerge.merge_requirements
          (SetupcfgMerge.merge_requirements
            (maybe_preserve_key
              (maybe_preserve_key d₅ target_doc "tool:pytest" "testpaths")
              target_doc "build" "executable")
            (some target_doc) "options.extras_require" "develop")
          (some target_doc) "options" "install_requires") s k := by
    intro s k
    rw [hout]
    exact getKey_pretty hw₉ s k
  refine ⟨?_, ?_, ?_, ?_, ?_⟩
  · intro e he hpat k
    obtain ⟨hn1, hn2, hn3, hn4, hex⟩ := four_pat_facts hpat
    rw [hget, getKey_after_merge_steps _ _ (fun hc => hn1 hc.1)
      (fun hc => hn2 hc.1) (fun hc => hn4 hc.1) (fun hc => hn3 hc.1),
      SetupcfgMerge.mps_frame target_doc d₄ _ _ d₅ h₅ e.1 k
        (fun e' he' hee => hex)]
    rcases Bool.or_eq_true_iff.mp hpat with h123 | hp4
    · rcases Bool.or_eq_true_iff.mp h123 with h12 | hp3
      · rcases Bool.or_eq_true_iff.mp h12 with hp1 | hp2
        · have hs := pat_freebsd_eq hp1
          rw [SetupcfgMerge.mps_frame target_doc d₃ _ _ d₄ h₄ e.1 k
              (fun e' he' hee => by rw [hs]; decide),
            SetupcfgMerge.mps_frame target_doc d₂ _ _ d₃ h₃ e.1 k
              (fun e' he' hee => by rw [hs]; decide),
            SetupcfgMerge.mps_frame target_doc d₁ _ _ d₂ h₂ e.1 k
              (fun e' he' hee => by rw [hs]; decide),
            SetupcfgMerge.mps_matched target_doc template_doc _ none d₁ h₁
              hwt hwg e he hp1 k]
        · rw [SetupcfgMerge.mps_frame target_doc d₃ _ _ d₄ h₄ e.1 k
              (fun e' he' hee => pat_mypy_entry_false hp2),
            SetupcfgMerge.mps_frame target_doc d₂ _ _ d₃ h₃ e.1 k
              (fun e' he' hee => pat_mypy_data_false hp2),
            SetupcfgMerge.mps_matched target_doc d₁ _ none d₂ h₂
              hw₁ hwg e he hp2 k]
      · rw [SetupcfgMerge.mps_frame target_doc d₃ _ _ d₄ h₄ e.1 k
            (fun e' he' hee => pat_data_entry_false hp3),
          SetupcfgMerge.mps_matched target_doc d₂ _ none d₃ h₃
            hw₂ hwg e he hp3 k]
    · rw [SetupcfgMerge.mps_matched target_doc d₃ _ none d₄ h₄
        hw₃ hwg e he hp4 k]
  · intro e he hpe k hkdev
    have hkne : k ≠ "develop" := by
      intro hk
      rw [hk] at hkdev
      cases hkdev
    rw [hget, getKey_after_merge_steps _ _
        (fun hc => pat_ne_of_false hpe (by decide) hc.1)
        (fun hc => pat_ne_of_false hpe (by decide) hc.1)
        (fun hc => hkne hc.2)
        (fun hc => pat_ne_of_false hpe (by decide) hc.1),
      SetupcfgMerge.mps_matched_some target_doc d₄ _
        SetupcfgMerge.pat_develop d₅ h₅ hw₄ hwg e he hpe k]
    rw [if_neg (by rw [hkdev]; exact Bool.false_ne_true)]
  · intro e he hpe hne
    obtain ⟨hd1, hd2, hd3, hd4⟩ := pat_extras_require_disjoint hpe
    rw [hget, getKey_after_merge_steps _ _
        (fun hc => pat_ne_of_false hpe (by decide) hc.1)
        (fun hc => pat_ne_of_false hpe (by decide) hc.1)
        (fun hc => hne hc.1)
        (fun hc => pat_ne_of_false hpe (by decide) hc.1),
      SetupcfgMerge.mps_matched_some target_doc d₄ _
        SetupcfgMerge.pat_develop d₅ h₅ hw₄ hwg e he hpe "develop",
      if_pos (show SetupcfgMerge.pat_develop "develop" = true from rfl),
      SetupcfgMerge.mps_frame target_doc d₃ _ _ d₄ h₄ e.1 "develop"
        (fun e' he' hee => hd4),
      SetupcfgMerge.mps_frame target_doc d₂ _ _ d₃ h₃ e.1 "develop"
        (fun e' he' hee => hd3),
      SetupcfgMerge.mps_frame target_doc d₁ _ _ d₂ h₂ e.1 "develop"
        (fun e' he' hee => hd2),
      SetupcfgMerge.mps_frame target_doc template_doc _ _ d₁ h₁ e.1
        "develop" (fun e' he' hee => hd1)]
  · have := (c10_core (maybe_preserve_key
        (maybe_preserve_key d₅ target_doc "tool:pytest" "testpaths")
        target_doc "build" "executable") (some target_doc) hw₇).2
    rcases this with ⟨tl, gl, hv⟩
    refine ⟨tl, gl, ?_⟩
    rw [hout]
    exact hv
  · intro s k hnone hk1 hk2 hk3 hk4
    have hpatfalse : ∀ e ∈ target_doc, e.1 = s → ∀ pat ∈
        [SetupcfgMerge.pat_freebsd, SetupcfgMerge.pat_mypy,
         SetupcfgMerge.pat_data_files, SetupcfgMerge.pat_entry_points,
         SetupcfgMerge.pat_extras_require], pat s = false := by
      intro e he hes pat hpat
      have := hnone e he hes
      simp only [Bool.or_eq_false_iff] at this
      rcases List.mem_cons.mp hpat with hp | hp
      · rw [hp]; exact this.1.1.1.1
      rcases List.mem_cons.mp hp with hp | hp
      · rw [hp]; exact this.1.1.1.2
      rcases List.mem_cons.mp hp with hp | hp
      · rw [hp]; exact this.1.1.2
      rcases List.mem_cons.mp hp with hp | hp
      · rw [hp]; exact this.1.2
      rcases List.mem_cons.mp hp with hp | hp
      · rw [hp]; exact this.2
      · cases hp
    rw [hget, getKey_after_merge_steps _ _ hk1 hk2 hk4 hk3,
      SetupcfgMerge.mps_frame target_doc d₄ _ _ d₅ h₅ s k
        (fun e' he' hee => hpatfalse e' he' hee _ (by simp)),
      SetupcfgMerge.mps_frame target_doc d₃ _ _ d₄ h₄ s k
        (fun e' he' hee => hpatfalse e' he' hee _ (by simp)),
      SetupcfgMerge.mps_frame target_doc d₂ _ _ d₃ h₃ s k
        (fun e' he' hee => hpatfalse e' he' hee _ (by simp)),
      SetupcfgMerge.mps_frame target_doc d₁ _ _ d₂ h₂ s k
        (fun e' he' hee => hpatfalse e' he' hee _ (by simp)),
      SetupcfgMerge.mps_frame target_doc template_doc _ _ d₁ h₁ s k
        (fun e' he' hee => hpatfalse e' he' hee _ (by simp))]

/-- The claim's reading of the section preservation patterns, following the spec's
words: exact section names (with a literal dot) plus the `mypy-` prefix. -/
def specSectionPreservePat (s : String) : Bool :=
  s == "freebsd" || "mypy-".data.isPrefixOf s.data || s == "options.data_files" ||
    s == "options.entry_points" || s == "options.extras_require"

/-- A template for the C2 counterexample: a section whose name matches
`^options.data_files$` only through the regex wildcard, and a `tool:pytest`
section. -/
def c2_template : Doc :=
  [("optionsXdata_files", [("k", "tv")]), ("tool:pytest", [("testpaths", "tp")])]

/-- The target for the C2 counterexample. -/
def c2_target : Doc :=
  [("optionsXdata_files", [("k", "gv")]), ("tool:pytest", [("testpaths", "gp")])]

/-- C2 counterexample: neither `optionsXdata_files` (the regex `.` is a wildcard,
not a literal dot) nor `tool:pytest` matches the claim's fixed patterns, yet the
target's content replaces the template's in both: `optionsXdata_files.k` becomes
`gv` instead of the template's `tv`, and `tool:pytest.testpaths` becomes `gp`
instead of `tp`. -/
theorem claim_C2_counterexample :
    specSectionPreservePat "optionsXdata_files" = false
    ∧ specSectionPreservePat "tool:pytest" = false
    ∧ (SetupcfgMerge.apply c2_template (some c2_target)).map
        (fun d => getKey d "optionsXdata_files" "k") = some (some "gv")
    ∧ (SetupcfgMerge.apply c2_template (some c2_target)).map
        (fun d => getKey d "tool:pytest" "testpaths") = some (some "gp")
    ∧ getKey c2_template "optionsXdata_files" "k" = some "tv"
    ∧ getKey c2_template "tool:pytest" "testpaths" = some "tp"
    ∧ DocWF c2_template ∧ DocWF c2_target :=
  ⟨rfl, rfl, rfl, rfl, rfl, rfl, by decide, by decide⟩

/-- C2 witness: the amended claim theorem at the empty template and empty target,
with well-formedness and the success of `apply` discharged by computation. -/
theorem claim_C2_witness :
    (∀ e ∈ ([] : Doc),
      (SetupcfgMerge.pat_freebsd e.1 || SetupcfgMerge.pat_mypy e.1 ||
        SetupcfgMerge.pat_data_files e.1 ||
        SetupcfgMerge.pat_entry_points e.1) = true →
      ∀ k, getKey [("options", [("install_requires", "")]),
        ("options.extras_require", [("develop", "")])] e.1 k = lookupKey e.2 k)
    ∧ (∀ e ∈ ([] : Doc), SetupcfgMerge.pat_extras_require e.1 = true →
      ∀ k, SetupcfgMerge.pat_develop k = false →
        getKey [("options", [("install_requires", "")]),
          ("options.extras_require", [("develop", "")])] e.1 k = lookupKey e.2 k)
    ∧ (∀ e ∈ ([] : Doc), SetupcfgMerge.pat_extras_require e.1 = true →
      e.1 ≠ "options.extras_require" →
      getKey [("options", [("install_requires", "")]),
          ("options.extras_require", [("develop", "")])] e.1 "develop"
        = match getKey ([] : Doc) e.1 "develop" with
          | some v => some v
          | none => lookupKey e.2 "develop")
    ∧ (∃ tl gl, getKey [("options", [("install_requires", "")]),
        ("options.extras_require", [("develop", "")])] "options.extras_require"
          "develop"
      = some (dump_setupcfg_requirements
          (SetupcfgMerge.merge_requirements_list tl gl)))
    ∧ (∀ s k, (∀ e ∈ ([] : Doc), e.1 = s →
        (SetupcfgMerge.pat_freebsd s || SetupcfgMerge.pat_mypy s ||
         SetupcfgMerge.pat_data_files s || SetupcfgMerge.pat_entry_points s ||
         SetupcfgMerge.pat_extras_require s) = false) →
      ¬(s = "tool:pytest" ∧ k = "testpaths") →
      ¬(s = "build" ∧ k = "executable") →
      ¬(s = "options" ∧ k = "install_requires") →
      ¬(s = "options.extras_require" ∧ k = "develop") →
      getKey [("options", [("install_requires", "")]),
        ("options.extras_require", [("develop", "")])] s k
        = getKey ([] : Doc) s k) :=
  claim_C2_amended [] []
    [("options", [("install_requires", "")]),
      ("options.extras_require", [("develop", "")])]
    (by decide) (by decide) (by rfl)
